import Mathlib

/-!
# Verification of the libtmc memipc ring, manager state machine and helpers

Shallow embedding of the coordination core of `isol.c`:

* the 7-bytes-in-8 presence-bit codec (`write_encode_bytes`,
  `write_encode_bytes_with_header`, `read_decode_bytes`,
  `read_decode_bytes_with_header`);
* the single-producer/single-consumer ring operations `memipc_add_req` and
  `memipc_get_req` over `struct memipc_area`;
* the manager pass `memipc_isolation_process_ready_launch`;
* the timer-feed parser `process_all_timers`;
* the push-away policy of `process_all_threads`;
* the control-protocol command handler `client_text_handler`.

Machine bytes are `Nat` with explicit `% 256` truncation where the C code
stores into `unsigned char`.  The shared buffer is a function `Nat → Nat`
from byte offsets to byte values; pointer arithmetic of the C code becomes
offset arithmetic relative to the area start.
-/

namespace Isol

/-! ## The 7-in-8 byte codec

`write_encode_bytes` packs seven source bytes `s0..s6` into eight stored
bytes, each with its low bit (the presence marker) forced to 1.  The
formulas below are transcribed from the encode and decode blocks of
`isol.c`; the `% 256` is the truncation performed by storing into the
`unsigned char` locals `dst0..dst7`. -/

def encB0 (s0 : Nat) : Nat := ((s0 <<< 1) ||| 1) % 256
def encB1 (s0 s1 : Nat) : Nat := (((s0 &&& 0x80) >>> 6) ||| (s1 <<< 2) ||| 1) % 256
def encB2 (s1 s2 : Nat) : Nat := (((s1 &&& 0xc0) >>> 5) ||| (s2 <<< 3) ||| 1) % 256
def encB3 (s2 s3 : Nat) : Nat := (((s2 &&& 0xe0) >>> 4) ||| (s3 <<< 4) ||| 1) % 256
def encB4 (s3 s4 : Nat) : Nat := (((s3 &&& 0xf0) >>> 3) ||| (s4 <<< 5) ||| 1) % 256
def encB5 (s4 s5 : Nat) : Nat := (((s4 &&& 0xf8) >>> 2) ||| (s5 <<< 6) ||| 1) % 256
def encB6 (s5 s6 : Nat) : Nat := (((s5 &&& 0xfc) >>> 1) ||| (s6 <<< 7) ||| 1) % 256
def encB7 (s6 : Nat) : Nat := (s6 ||| 1) % 256

/-- The eight encoded bytes of one block, as a function of the seven source
bytes (`s : Nat → Nat`, positions 0..6). -/
def encBlock (s : Nat → Nat) : Nat → Nat := fun j =>
  match j with
  | 0 => encB0 (s 0)
  | 1 => encB1 (s 0) (s 1)
  | 2 => encB2 (s 1) (s 2)
  | 3 => encB3 (s 2) (s 3)
  | 4 => encB4 (s 3) (s 4)
  | 5 => encB5 (s 4) (s 5)
  | 6 => encB6 (s 5) (s 6)
  | 7 => encB7 (s 6)
  | _ => 0

/-- Decode formulas of `read_decode_bytes`: payload byte `j` is recovered
from stored bytes `j` and `j+1`. -/
def decB0 (e0 e1 : Nat) : Nat := (e0 >>> 1) ||| ((e1 <<< 6) &&& 0x80)
def decB1 (e1 e2 : Nat) : Nat := (e1 >>> 2) ||| ((e2 <<< 5) &&& 0xc0)
def decB2 (e2 e3 : Nat) : Nat := (e2 >>> 3) ||| ((e3 <<< 4) &&& 0xe0)
def decB3 (e3 e4 : Nat) : Nat := (e3 >>> 4) ||| ((e4 <<< 3) &&& 0xf0)
def decB4 (e4 e5 : Nat) : Nat := (e4 >>> 5) ||| ((e5 <<< 2) &&& 0xf8)
def decB5 (e5 e6 : Nat) : Nat := (e5 >>> 6) ||| ((e6 <<< 1) &&& 0xfc)
def decB6 (e6 e7 : Nat) : Nat := (e6 >>> 7) ||| (e7 &&& 0xfe)

/-- Decoded payload byte `j` (0..6) of a block given its eight stored
bytes `e : Nat → Nat`. -/
def decBlock (e : Nat → Nat) : Nat → Nat := fun j =>
  match j with
  | 0 => decB0 (e 0) (e 1)
  | 1 => decB1 (e 1) (e 2)
  | 2 => decB2 (e 2) (e 3)
  | 3 => decB3 (e 3) (e 4)
  | 4 => decB4 (e 4) (e 5)
  | 5 => decB5 (e 5) (e 6)
  | 6 => decB6 (e 6) (e 7)
  | _ => 0

/-! ### testBit toolkit -/

theorem tb_mod256 (x i : Nat) : (x % 256).testBit i = (decide (i < 8) && x.testBit i) := by
  rw [show (256 : ℕ) = 2 ^ 8 by norm_num, Nat.testBit_mod_two_pow]

theorem tb_hi {x i : Nat} (hx : x < 256) (h : 8 ≤ i) : x.testBit i = false :=
  Nat.testBit_eq_false_of_lt
    (lt_of_lt_of_le hx (le_trans (by norm_num) (Nat.pow_le_pow_right (by norm_num) h)))

theorem tb1 (i : Nat) : Nat.testBit 1 i = decide (i = 0) := by
  rcases Nat.lt_or_ge i 8 with h | h
  · interval_cases i <;> decide
  · rw [tb_hi (by norm_num) h]; simp; omega

theorem tb128 (i : Nat) : Nat.testBit 128 i = decide (i = 7) := by
  rcases Nat.lt_or_ge i 8 with h | h
  · interval_cases i <;> decide
  · rw [tb_hi (by norm_num) h]; simp; omega

theorem tb192 (i : Nat) : Nat.testBit 192 i = decide (6 ≤ i ∧ i < 8) := by
  rcases Nat.lt_or_ge i 8 with h | h
  · interval_cases i <;> decide
  · rw [tb_hi (by norm_num) h]; simp; omega

theorem tb224 (i : Nat) : Nat.testBit 224 i = decide (5 ≤ i ∧ i < 8) := by
  rcases Nat.lt_or_ge i 8 with h | h
  · interval_cases i <;> decide
  · rw [tb_hi (by norm_num) h]; simp; omega

theorem tb240 (i : Nat) : Nat.testBit 240 i = decide (4 ≤ i ∧ i < 8) := by
  rcases Nat.lt_or_ge i 8 with h | h
  · interval_cases i <;> decide
  · rw [tb_hi (by norm_num) h]; simp; omega

theorem tb248 (i : Nat) : Nat.testBit 248 i = decide (3 ≤ i ∧ i < 8) := by
  rcases Nat.lt_or_ge i 8 with h | h
  · interval_cases i <;> decide
  · rw [tb_hi (by norm_num) h]; simp; omega

theorem tb252 (i : Nat) : Nat.testBit 252 i = decide (2 ≤ i ∧ i < 8) := by
  rcases Nat.lt_or_ge i 8 with h | h
  · interval_cases i <;> decide
  · rw [tb_hi (by norm_num) h]; simp; omega

theorem tb254 (i : Nat) : Nat.testBit 254 i = decide (1 ≤ i ∧ i < 8) := by
  rcases Nat.lt_or_ge i 8 with h | h
  · interval_cases i <;> decide
  · rw [tb_hi (by norm_num) h]; simp; omega

theorem tb255 (i : Nat) : Nat.testBit 255 i = decide (i < 8) := by
  rcases Nat.lt_or_ge i 8 with h | h
  · interval_cases i <;> decide
  · rw [tb_hi (by norm_num) h]; simp; omega

/-! ### Round-trip of the codec -/

theorem encB0_lt (s0 : Nat) : encB0 s0 < 256 := Nat.mod_lt _ (by norm_num)
theorem encB1_lt (s0 s1 : Nat) : encB1 s0 s1 < 256 := Nat.mod_lt _ (by norm_num)
theorem encB2_lt (s1 s2 : Nat) : encB2 s1 s2 < 256 := Nat.mod_lt _ (by norm_num)
theorem encB3_lt (s2 s3 : Nat) : encB3 s2 s3 < 256 := Nat.mod_lt _ (by norm_num)
theorem encB4_lt (s3 s4 : Nat) : encB4 s3 s4 < 256 := Nat.mod_lt _ (by norm_num)
theorem encB5_lt (s4 s5 : Nat) : encB5 s4 s5 < 256 := Nat.mod_lt _ (by norm_num)
theorem encB6_lt (s5 s6 : Nat) : encB6 s5 s6 < 256 := Nat.mod_lt _ (by norm_num)
theorem encB7_lt (s6 : Nat) : encB7 s6 < 256 := Nat.mod_lt _ (by norm_num)

theorem decB_lt_aux {a b c : Nat} (ha : a < 256) (hc : c ≤ 255) :
    ((a >>> b) ||| c) < 256 := by
  have h1 : a >>> b < 256 := by
    rw [Nat.shiftRight_eq_div_pow]
    exact lt_of_le_of_lt (Nat.div_le_self _ _) ha
  calc (a >>> b) ||| c < 2 ^ 8 :=
        Nat.or_lt_two_pow (by norm_num at *; omega) (by omega)
    _ = 256 := by norm_num


theorem decB0_lt (e0 e1 : Nat) (h : e0 < 256) : decB0 e0 e1 < 256 := by
  unfold decB0; exact decB_lt_aux h (le_trans Nat.and_le_right (by norm_num))
theorem decB1_lt (e1 e2 : Nat) (h : e1 < 256) : decB1 e1 e2 < 256 := by
  unfold decB1; exact decB_lt_aux h (le_trans Nat.and_le_right (by norm_num))
theorem decB2_lt (e2 e3 : Nat) (h : e2 < 256) : decB2 e2 e3 < 256 := by
  unfold decB2; exact decB_lt_aux h (le_trans Nat.and_le_right (by norm_num))
theorem decB3_lt (e3 e4 : Nat) (h : e3 < 256) : decB3 e3 e4 < 256 := by
  unfold decB3; exact decB_lt_aux h (le_trans Nat.and_le_right (by norm_num))
theorem decB4_lt (e4 e5 : Nat) (h : e4 < 256) : decB4 e4 e5 < 256 := by
  unfold decB4; exact decB_lt_aux h (le_trans Nat.and_le_right (by norm_num))
theorem decB5_lt (e5 e6 : Nat) (h : e5 < 256) : decB5 e5 e6 < 256 := by
  unfold decB5; exact decB_lt_aux h (le_trans Nat.and_le_right (by norm_num))
theorem decB6_lt (e6 e7 : Nat) (h : e6 < 256) : decB6 e6 e7 < 256 := by
  unfold decB6; exact decB_lt_aux h (le_trans Nat.and_le_right (by norm_num))

theorem rt0 {s0 s1 : Nat} (h0 : s0 < 256) (h1 : s1 < 256) :
    decB0 (encB0 s0) (encB1 s0 s1) = s0 := by
  apply Nat.eq_of_testBit_eq
  intro i
  rcases Nat.lt_or_ge i 8 with h | h
  · interval_cases i <;>
      simp [decB0, encB0, encB1, tb_mod256, tb1, tb128, tb192, tb224,
        tb240, tb248, tb252, tb254, tb255]
  · rw [tb_hi (decB0_lt _ _ (encB0_lt s0)) h, tb_hi h0 h]

theorem rt1 {s0 s1 s2 : Nat} (h0 : s0 < 256) (h1 : s1 < 256) (h2 : s2 < 256) :
    decB1 (encB1 s0 s1) (encB2 s1 s2) = s1 := by
  apply Nat.eq_of_testBit_eq
  intro i
  rcases Nat.lt_or_ge i 8 with h | h
  · interval_cases i <;>
      simp [decB1, encB1, encB2, tb_mod256, tb1, tb128, tb192, tb224,
        tb240, tb248, tb252, tb254, tb255]
  · rw [tb_hi (decB1_lt _ _ (encB1_lt s0 s1)) h, tb_hi h1 h]

theorem rt2 {s1 s2 s3 : Nat} (h1 : s1 < 256) (h2 : s2 < 256) (h3 : s3 < 256) :
    decB2 (encB2 s1 s2) (encB3 s2 s3) = s2 := by
  apply Nat.eq_of_testBit_eq
  intro i
  rcases Nat.lt_or_ge i 8 with h | h
  · interval_cases i <;>
      simp [decB2, encB2, encB3, tb_mod256, tb1, tb128, tb192, tb224,
        tb240, tb248, tb252, tb254, tb255]
  · rw [tb_hi (decB2_lt _ _ (encB2_lt s1 s2)) h, tb_hi h2 h]

theorem rt3 {s2 s3 s4 : Nat} (h2 : s2 < 256) (h3 : s3 < 256) (h4 : s4 < 256) :
    decB3 (encB3 s2 s3) (encB4 s3 s4) = s3 := by
  apply Nat.eq_of_testBit_eq
  intro i
  rcases Nat.lt_or_ge i 8 with h | h
  · interval_cases i <;>
      simp [decB3, encB3, encB4, tb_mod256, tb1, tb128, tb192, tb224,
        tb240, tb248, tb252, tb254, tb255]
  · rw [tb_hi (decB3_lt _ _ (encB3_lt s2 s3)) h, tb_hi h3 h]

theorem rt4 {s3 s4 s5 : Nat} (h3 : s3 < 256) (h4 : s4 < 256) (h5 : s5 < 256) :
    decB4 (encB4 s3 s4) (encB5 s4 s5) = s4 := by
  apply Nat.eq_of_testBit_eq
  intro i
  rcases Nat.lt_or_ge i 8 with h | h
  · interval_cases i <;>
      simp [decB4, encB4, encB5, tb_mod256, tb1, tb128, tb192, tb224,
        tb240, tb248, tb252, tb254, tb255]
  · rw [tb_hi (decB4_lt _ _ (encB4_lt s3 s4)) h, tb_hi h4 h]

theorem rt5 {s4 s5 s6 : Nat} (h4 : s4 < 256) (h5 : s5 < 256) (h6 : s6 < 256) :
    decB5 (encB5 s4 s5) (encB6 s5 s6) = s5 := by
  apply Nat.eq_of_testBit_eq
  intro i
  rcases Nat.lt_or_ge i 8 with h | h
  · interval_cases i <;>
      simp [decB5, encB5, encB6, tb_mod256, tb1, tb128, tb192, tb224,
        tb240, tb248, tb252, tb254, tb255]
  · rw [tb_hi (decB5_lt _ _ (encB5_lt s4 s5)) h, tb_hi h5 h]

theorem rt6 {s5 s6 : Nat} (h5 : s5 < 256) (h6 : s6 < 256) :
    decB6 (encB6 s5 s6) (encB7 s6) = s6 := by
  apply Nat.eq_of_testBit_eq
  intro i
  rcases Nat.lt_or_ge i 8 with h | h
  · interval_cases i <;>
      simp [decB6, encB6, encB7, tb_mod256, tb1, tb128, tb192, tb224,
        tb240, tb248, tb252, tb254, tb255]
  · rw [tb_hi (decB6_lt _ _ (encB6_lt s5 s6)) h, tb_hi h6 h]

/-- All seven payload positions round-trip through one encoded block. -/
theorem decBlock_encBlock (s : Nat → Nat) (hs : ∀ j < 7, s j < 256) :
    ∀ j < 7, decBlock (encBlock s) j = s j := by
  intro j hj
  have h0 := hs 0 (by norm_num)
  have h1 := hs 1 (by norm_num)
  have h2 := hs 2 (by norm_num)
  have h3 := hs 3 (by norm_num)
  have h4 := hs 4 (by norm_num)
  have h5 := hs 5 (by norm_num)
  have h6 := hs 6 (by norm_num)
  interval_cases j
  · exact rt0 h0 h1
  · exact rt1 h0 h1 h2
  · exact rt2 h1 h2 h3
  · exact rt3 h2 h3 h4
  · exact rt4 h3 h4 h5
  · exact rt5 h4 h5 h6
  · exact rt6 h5 h6

/-- Every stored byte of an encoded block is odd: its presence bit is 1. -/
theorem encBlock_odd (s : Nat → Nat) : ∀ j < 8, encBlock s j % 2 = 1 := by
  intro j hj
  have key : ∀ x : Nat, (x ||| 1) % 256 % 2 = 1 := by
    intro x
    have h1 : ((x ||| 1) % 256).testBit 0 = true := by
      rw [tb_mod256]
      simp [tb1]
    simpa [Nat.testBit_zero] using h1
  interval_cases j <;>
    simp only [encBlock, encB0, encB1, encB2, encB3, encB4, encB5, encB6, encB7] <;>
    exact key _

/-! ## Parity of `|||` / `&&&` chains (the presence-bit checks) -/

theorem or_odd (a b : Nat) : (a ||| b) % 2 = 1 ↔ a % 2 = 1 ∨ b % 2 = 1 := by
  have h := Nat.testBit_or a b 0
  simp only [Nat.testBit_zero] at h
  constructor
  · intro h2
    have : (decide (a % 2 = 1) || decide (b % 2 = 1)) = true := by rw [← h]; simp [h2]
    simpa using this
  · intro h2
    have : (decide (a % 2 = 1) || decide (b % 2 = 1)) = true := by
      rcases h2 with h2 | h2 <;> simp [h2]
    rw [← h] at this
    simpa using this

theorem and_odd (a b : Nat) : (a &&& b) % 2 = 1 ↔ a % 2 = 1 ∧ b % 2 = 1 := by
  have h := Nat.testBit_and a b 0
  simp only [Nat.testBit_zero] at h
  constructor
  · intro h2
    have : (decide (a % 2 = 1) && decide (b % 2 = 1)) = true := by rw [← h]; simp [h2]
    simpa using this
  · intro h2
    have : (decide (a % 2 = 1) && decide (b % 2 = 1)) = true := by simp [h2.1, h2.2]
    rw [← h] at this
    simpa using this

/-! ## The shared buffer and the block read/write primitives

The shared ring memory is a function `Nat → Nat` from byte offsets
(relative to `area->area`) to byte values.  `write_encode_bytes` and its
header-carrying variant refuse to touch a block whose eight low bits are
not all 0 and otherwise overwrite exactly the eight bytes of the block;
`read_decode_bytes` and its header variant refuse a block whose eight low
bits are not all 1 and otherwise write the decoded payload bytes into the
destination buffer. -/

def Buf := Nat → Nat

/-- Overwrite the eight bytes of the block starting at offset `d`. -/
def writeBlockAt (buf : Buf) (d : Nat) (e : Nat → Nat) : Buf :=
  fun q => if d ≤ q ∧ q < d + 8 then e (q - d) else buf q

/-- `write_encode_bytes(dst, src, size)`: `dst` is the block offset in
`buf`, `src` the source bytes, `size` how many of the seven payload
positions are taken from `src` (the rest are zero-filled).  Returns the C
return value together with the buffer after the call. -/
def write_encode_bytes (buf : Buf) (dst : Nat) (src : List Nat) (size : Nat) :
    Int × Buf :=
  if 1 &&& (buf dst ||| buf (dst + 1) ||| buf (dst + 2) ||| buf (dst + 3) |||
      buf (dst + 4) ||| buf (dst + 5) ||| buf (dst + 6) ||| buf (dst + 7)) ≠ 0 then
    (-1, buf)
  else
    (0, writeBlockAt buf dst (encBlock (fun j => if j < size then src.getD j 0 else 0)))

/-- Source-byte selection of `write_encode_bytes_with_header`: byte 0 is
the request type, bytes 1–4 the little-endian 32-bit message size, bytes
5–6 up to `size ≤ 2` payload bytes from `src`. -/
def headerSrc (t msize : Nat) (src : List Nat) (size : Nat) : Nat → Nat := fun j =>
  match j with
  | 0 => t % 256
  | 1 => msize &&& 0xff
  | 2 => (msize >>> 8) &&& 0xff
  | 3 => (msize >>> 16) &&& 0xff
  | 4 => (msize >>> 24) &&& 0xff
  | 5 => if 1 ≤ size then src.getD 0 0 else 0
  | 6 => if 2 ≤ size then src.getD 1 0 else 0
  | _ => 0

/-- `write_encode_bytes_with_header(dst, src, size, t, msize)`. -/
def write_encode_bytes_with_header (buf : Buf) (dst : Nat) (src : List Nat)
    (size : Nat) (t : Nat) (msize : Nat) : Int × Buf :=
  if 1 &&& (buf dst ||| buf (dst + 1) ||| buf (dst + 2) ||| buf (dst + 3) |||
      buf (dst + 4) ||| buf (dst + 5) ||| buf (dst + 6) ||| buf (dst + 7)) ≠ 0 then
    (-1, buf)
  else
    (0, writeBlockAt buf dst (encBlock (headerSrc t msize src size)))

/-- `read_decode_bytes(dst, src, size)`: decodes the block at offset `s`
of `buf` into the caller buffer `dst` at offsets `dstBase ..`.  The C
switch writes `dst[size-1] .. dst[0]` and writes nothing when `size` is 0
or exceeds 7. -/
def read_decode_bytes (dst : Buf) (dstBase : Nat) (buf : Buf) (s : Nat)
    (size : Nat) : Int × Buf :=
  let e : Nat → Nat := fun j => buf (s + j)
  if 1 &&& (e 0 &&& e 1 &&& e 2 &&& e 3 &&& e 4 &&& e 5 &&& e 6 &&& e 7) ≠ 1 then
    (-1, dst)
  else
    let w := if size ≤ 7 then size else 0
    (0, fun q => if dstBase ≤ q ∧ q < dstBase + w then decBlock e (q - dstBase) else dst q)

/-- `read_decode_bytes_with_header(dst, src, size, type, msize)`: the C
switch writes `dst[1]` (payload byte 1) when `size = 2`, `dst[0]` when
`size ≥ 1`, and always extracts the type byte and the little-endian
message size.  On failure the out-parameters are untouched; the returned
type and size components are only meaningful when the result is 0. -/
def read_decode_bytes_with_header (dst : Buf) (dstBase : Nat) (buf : Buf)
    (s : Nat) (size : Nat) : Int × Buf × Nat × Nat :=
  let e : Nat → Nat := fun j => buf (s + j)
  if 1 &&& (e 0 &&& e 1 &&& e 2 &&& e 3 &&& e 4 &&& e 5 &&& e 6 &&& e 7) ≠ 1 then
    (-1, dst, 0, 0)
  else
    let msize := (decB4 (e 4) (e 5)) <<< 24 ||| (decB3 (e 3) (e 4)) <<< 16 |||
      (decB2 (e 2) (e 3)) <<< 8 ||| decB1 (e 1) (e 2)
    let t := decB0 (e 0) (e 1)
    let dst' : Buf :=
      match size with
      | 2 => fun q => if q = dstBase then decB5 (e 5) (e 6)
          else if q = dstBase + 1 then decB6 (e 6) (e 7) else dst q
      | 1 => fun q => if q = dstBase then decB5 (e 5) (e 6) else dst q
      | _ => dst
    (0, dst', t, msize)

/-! ## `struct memipc_area` and the ring operations -/

/-- `struct memipc_area`.  `wptr` and `rptr` are byte offsets from the
area start (the C pointers minus `area->area`); `writer` and `reader` are
the recorded thread identities. -/
structure MemipcArea where
  buf : Buf
  wptr : Nat
  rptr : Nat
  size : Nat
  inbuffer : Nat
  writer : Nat
  reader : Nat

/-- The producer-side catch-up loop at the top of `memipc_add_req`: skip
already-consumed blocks (low bit 0) behind the cached read pointer, one
byte at a time, decrementing the cached `inbuffer`. -/
def writerSync (buf : Buf) (size : Nat) (ptr inb : Nat) : Nat × Nat :=
  match inb with
  | 0 => (ptr, 0)
  | n + 1 =>
    if buf ptr &&& 1 = 0 then
      let p1 := ptr + 1
      writerSync buf size (if p1 ≥ size then 0 else p1) n
    else (ptr, n + 1)

/-- The consumer-side catch-up loop at the top of `memipc_get_req`: walk
forward over ready bytes (low bit 1) while `inbuffer < size`.  The fuel
argument is `size - inbuffer`, which encodes the `inbuffer < size` bound
of the C loop. -/
def readerSync (buf : Buf) (size : Nat) (ptr inb fuel : Nat) : Nat × Nat :=
  match fuel with
  | 0 => (ptr, inb)
  | f + 1 =>
    if buf ptr &&& 1 = 1 then
      let p1 := ptr + 1
      readerSync buf size (if p1 ≥ size then 0 else p1) (inb + 1) f
    else (ptr, inb)

/-- `blocks_count` as computed in `memipc_add_req` and `memipc_get_req`:
`total / 7`, plus one when there is a remainder. -/
def blocksFor (total : Nat) : Nat :=
  total / 7 + (if total - total / 7 * 7 ≠ 0 then 1 else 0)

/-- One of the two block-writing loops of `memipc_add_req`, iterating the
C loop variable `i` from `n` down to 1 and writing block `i - 1` at offset
`base + (i-1)*8`.  `srcExtra` is 0 for the unwrapped loop and
`blocks_available_1` for the wrapped loop (whose source data starts
`blocks_available_1 * SEVEN` bytes in).  The block whose source offset
`srcExtra*7 + i*7 - 5` is below `SEVEN` is the header block.  Returns the
return code, the buffer after the writes, and the chronological list of
`(block offset, is-header)` writes that succeeded. -/
def addWriteRun (t L : Nat) (data : List Nat) (base srcExtra : Nat) :
    Nat → Buf → Int × Buf × List (Nat × Bool)
  | 0, buf => (0, buf, [])
  | i' + 1, buf =>
    let srcOff := srcExtra * 7 + (i' + 1) * 7 - 5
    let target := base + i' * 8
    if 7 ≤ srcOff then
      let srcsize := min 7 (L - (srcOff - 7))
      match write_encode_bytes buf target (data.drop (srcOff - 7)) srcsize with
      | (e, buf') =>
        if e ≠ 0 then (-1, buf', [])
        else
          match addWriteRun t L data base srcExtra i' buf' with
          | (r, buf'', tr) => (r, buf'', (target, false) :: tr)
    else
      let srcsize := min srcOff L
      match write_encode_bytes_with_header buf target data srcsize t
          ((L + 5) % 2 ^ 32) with
      | (e, buf') =>
        if e ≠ 0 then (-1, buf', [])
        else
          match addWriteRun t L data base srcExtra i' buf' with
          | (r, buf'', tr) => (r, buf'', (target, true) :: tr)

/-- Result of `memipc_add_req`: the C return value, the area descriptor
after the call, and the chronological list of block writes that
succeeded (offset of the block, and whether it was the header block). -/
structure AddResult where
  ret : Int
  area : MemipcArea
  writes : List (Nat × Bool)

/-- `memipc_add_req(area, req_type, req_size, req_data)`, called by thread
`pid` (the C code compares `area->writer` against the thread-local
`memipc_my_pid`). -/
def memipc_add_req (pid : Nat) (area : MemipcArea) (req_type : Nat)
    (req_size : Nat) (req_data : List Nat) : AddResult :=
  if area.writer ≠ pid then ⟨-1, area, []⟩
  else
    let s := writerSync area.buf area.size area.rptr area.inbuffer
    let a1 : MemipcArea := { area with rptr := s.1, inbuffer := s.2 }
    if a1.inbuffer = a1.size then ⟨-1, a1, []⟩
    else
      let total := req_size + 5
      let bc := blocksFor total
      let av1 := if a1.wptr < a1.rptr then (a1.rptr - a1.wptr) / 8
        else (a1.size - a1.wptr) / 8
      let av2 := if a1.wptr < a1.rptr then 0 else a1.rptr / 8
      if bc > av1 + av2 then ⟨-1, a1, []⟩
      else
        if bc > av1 then
          -- wrap around: write the wrapped tail at the area start first
          let nw := (bc - av1) * 8
          match addWriteRun req_type req_size req_data 0 av1 (bc - av1) a1.buf with
          | (e, buf1, tr1) =>
            if e ≠ 0 then ⟨-1, { a1 with buf := buf1 }, tr1⟩
            else
              match addWriteRun req_type req_size req_data a1.wptr 0 av1 buf1 with
              | (e2, buf2, tr2) =>
                if e2 ≠ 0 then ⟨-1, { a1 with buf := buf2 }, tr1 ++ tr2⟩
                else
                  ⟨0, { a1 with
                        buf := buf2
                        wptr := nw
                        inbuffer := a1.inbuffer + bc * 8 }, tr1 ++ tr2⟩
        else
          let nw0 := a1.wptr + bc * 8
          let nw := if nw0 ≥ a1.size then 0 else nw0
          match addWriteRun req_type req_size req_data a1.wptr 0 bc a1.buf with
          | (e, buf1, tr) =>
            if e ≠ 0 then ⟨-1, { a1 with buf := buf1 }, tr⟩
            else
              ⟨0, { a1 with
                    buf := buf1
                    wptr := nw
                    inbuffer := a1.inbuffer + bc * 8 }, tr⟩

/-- `memipc_clearmem(p, size)`: zero `n` bytes starting at offset `d`. -/
def clearMem (buf : Buf) (d n : Nat) : Buf :=
  fun q => if d ≤ q ∧ q < d + n then 0 else buf q

/-- The block-reading loop of `memipc_get_req` (both the unwrapped and the
wrapped part): read `k` consecutive blocks starting at absolute offset
`addr`, the first having message-block index `bIdx`, decoding
`min 7 (total - bIdx*7)` bytes of each into the caller buffer at `dstp`. -/
def getReadRun (total : Nat) (buf : Buf) :
    Nat → Nat → Nat → Buf → Nat → Int × Buf × Nat
  | _, _, 0, dst, dstp => (0, dst, dstp)
  | addr, bIdx, k + 1, dst, dstp =>
    let dstsize := min 7 (total - bIdx * 7)
    match read_decode_bytes dst dstp buf addr dstsize with
    | (e, dst') =>
      if e ≠ 0 then (-1, dst', dstp)
      else getReadRun total buf (addr + 8) (bIdx + 1) k dst' (dstp + dstsize)

/-- Result of `memipc_get_req`: the C return value, the area descriptor
after the call, the caller's data buffer, and the final values of the
in-out parameters `*req_type` and `*req_size`. -/
structure GetResult where
  ret : Int
  area : MemipcArea
  data : Buf
  rtype : Nat
  rsize : Nat

/-- `memipc_get_req(area, req_type, req_size, req_data)` called by thread
`pid`.  `rsize0` is the buffer capacity passed in `*req_size`; `rtype0`
and `data0` are the initial contents of the out-parameters.  (The final
thread-local `memipc_check_newdata_ptr` update has no effect on the ring
state and is not modelled.) -/
def memipc_get_req (pid : Nat) (area : MemipcArea) (rtype0 rsize0 : Nat)
    (data0 : Buf) : GetResult :=
  if area.reader ≠ pid then ⟨-1, area, data0, rtype0, rsize0⟩
  else
    let s := readerSync area.buf area.size area.wptr area.inbuffer
      (area.size - area.inbuffer)
    let a1 : MemipcArea := { area with wptr := s.1, inbuffer := s.2 }
    if a1.inbuffer < 8 then ⟨-1, a1, data0, rtype0, rsize0⟩
    else
      match read_decode_bytes_with_header data0 0 a1.buf a1.rptr 2 with
      | (e, data1, t, msize) =>
        if e ≠ 0 then ⟨-1, a1, data1, rtype0, rsize0⟩
        else
          let total := msize
          if total > rsize0 + 5 then ⟨-2, a1, data1, rtype0, rsize0⟩
          else
            let rsize := total - 5
            let rtype := t
            if total ≤ 7 then
              let buf1 := clearMem a1.buf a1.rptr 8
              let rp0 := a1.rptr + 8
              let rp := if rp0 ≥ a1.size then 0 else rp0
              ⟨0, { a1 with
                    buf := buf1
                    rptr := rp
                    inbuffer := a1.inbuffer - 8 }, data1, rtype, rsize⟩
            else
              let bc := blocksFor total
              if a1.inbuffer < bc * 8 then ⟨-1, a1, data1, rtype, rsize⟩
              else
                let bc1' := (a1.size - a1.rptr) / 8
                let bc1 := if bc ≤ bc1' then bc else bc1'
                let bc2 := if bc ≤ bc1' then 0 else bc - bc1'
                match getReadRun total a1.buf (a1.rptr + 8) 1 (bc1 - 1) data1
                    (7 - 5) with
                | (e1, data2, dstp2) =>
                  if e1 ≠ 0 then ⟨-1, a1, data2, rtype, rsize⟩
                  else
                    let curr0 := a1.rptr + bc1 * 8
                    if curr0 ≥ a1.size then
                      if bc2 > 0 then
                        match getReadRun total a1.buf 0 bc1 bc2 data2 dstp2 with
                        | (e2, data3, _) =>
                          if e2 ≠ 0 then ⟨-1, a1, data3, rtype, rsize⟩
                          else
                            let buf1 := clearMem a1.buf 0 (bc2 * 8)
                            let buf2 := clearMem buf1 a1.rptr (bc1 * 8)
                            ⟨0, { a1 with
                                  buf := buf2
                                  rptr := bc2 * 8
                                  inbuffer := a1.inbuffer - bc * 8 },
                              data3, rtype, rsize⟩
                      else
                        let buf2 := clearMem a1.buf a1.rptr (bc1 * 8)
                        ⟨0, { a1 with
                              buf := buf2
                              rptr := 0
                              inbuffer := a1.inbuffer - bc * 8 },
                          data2, rtype, rsize⟩
                    else
                      let buf2 := clearMem a1.buf a1.rptr (bc1 * 8)
                      ⟨0, { a1 with
                            buf := buf2
                            rptr := curr0
                            inbuffer := a1.inbuffer - bc * 8 },
                        data2, rtype, rsize⟩

/-! ## Claim C2: the presence-bit protocol of the block primitives -/

theorem orChain8_odd (b0 b1 b2 b3 b4 b5 b6 b7 : Nat) :
    (b0 ||| b1 ||| b2 ||| b3 ||| b4 ||| b5 ||| b6 ||| b7) % 2 = 1 ↔
      (b0 % 2 = 1 ∨ b1 % 2 = 1 ∨ b2 % 2 = 1 ∨ b3 % 2 = 1 ∨ b4 % 2 = 1 ∨
        b5 % 2 = 1 ∨ b6 % 2 = 1 ∨ b7 % 2 = 1) := by
  simp only [or_odd]; tauto

theorem andChain8_odd (b0 b1 b2 b3 b4 b5 b6 b7 : Nat) :
    (b0 &&& b1 &&& b2 &&& b3 &&& b4 &&& b5 &&& b6 &&& b7) % 2 = 1 ↔
      (b0 % 2 = 1 ∧ b1 % 2 = 1 ∧ b2 % 2 = 1 ∧ b3 % 2 = 1 ∧ b4 % 2 = 1 ∧
        b5 % 2 = 1 ∧ b6 % 2 = 1 ∧ b7 % 2 = 1) := by
  simp only [and_odd]; tauto

/-- C2.  Presence-bit protocol invariant: the producer primitives
`write_encode_bytes` and `write_encode_bytes_with_header` return nonzero
and leave the buffer unmodified whenever any of the 8 low (presence) bits
of the target block is 1, and the consumer primitives `read_decode_bytes`
and `read_decode_bytes_with_header` return nonzero and leave the
destination unmodified whenever any of the 8 low bits of the source block
is 0 — for every block and every call. -/
theorem c2_presence_bit_protocol :
    (∀ (buf : Buf) (d : Nat) (src : List Nat) (size : Nat),
      (∃ j < 8, buf (d + j) % 2 = 1) →
        write_encode_bytes buf d src size = (-1, buf)) ∧
    (∀ (buf : Buf) (d : Nat) (src : List Nat) (size t msize : Nat),
      (∃ j < 8, buf (d + j) % 2 = 1) →
        write_encode_bytes_with_header buf d src size t msize = (-1, buf)) ∧
    (∀ (dst : Buf) (dstBase : Nat) (buf : Buf) (s : Nat) (size : Nat),
      (∃ j < 8, buf (s + j) % 2 = 0) →
        read_decode_bytes dst dstBase buf s size = (-1, dst)) ∧
    (∀ (dst : Buf) (dstBase : Nat) (buf : Buf) (s : Nat) (size : Nat),
      (∃ j < 8, buf (s + j) % 2 = 0) →
        read_decode_bytes_with_header dst dstBase buf s size = (-1, dst, 0, 0)) := by
  have hw : ∀ (buf : Buf) (d : Nat), (∃ j < 8, buf (d + j) % 2 = 1) →
      1 &&& (buf d ||| buf (d + 1) ||| buf (d + 2) ||| buf (d + 3) |||
        buf (d + 4) ||| buf (d + 5) ||| buf (d + 6) ||| buf (d + 7)) ≠ 0 := by
    rintro buf d ⟨j, hj, hodd⟩
    rw [Nat.one_and_eq_mod_two]
    have : (buf d ||| buf (d + 1) ||| buf (d + 2) ||| buf (d + 3) |||
        buf (d + 4) ||| buf (d + 5) ||| buf (d + 6) ||| buf (d + 7)) % 2 = 1 := by
      rw [orChain8_odd]
      interval_cases j <;> (try simp only [Nat.add_zero] at hodd) <;> tauto
    omega
  have hr : ∀ (buf : Buf) (s : Nat), (∃ j < 8, buf (s + j) % 2 = 0) →
      1 &&& (buf (s + 0) &&& buf (s + 1) &&& buf (s + 2) &&& buf (s + 3) &&&
        buf (s + 4) &&& buf (s + 5) &&& buf (s + 6) &&& buf (s + 7)) ≠ 1 := by
    rintro buf s ⟨j, hj, heven⟩
    rw [Nat.one_and_eq_mod_two]
    intro hall
    rw [andChain8_odd] at hall
    interval_cases j <;> omega
  refine ⟨?_, ?_, ?_, ?_⟩
  · intro buf d src size h
    unfold write_encode_bytes
    rw [if_pos (hw buf d h)]
  · intro buf d src size t msize h
    unfold write_encode_bytes_with_header
    rw [if_pos (hw buf d h)]
  · intro dst dstBase buf s size h
    unfold read_decode_bytes
    rw [if_pos (hr buf s h)]
  · intro dst dstBase buf s size h
    unfold read_decode_bytes_with_header
    rw [if_pos (hr buf s h)]

/-- Witness for C2 at concrete inputs: a block with its first presence bit
set refuses the write, and a block with a cleared presence bit refuses the
read. -/
theorem c2_presence_bit_protocol_witness :
    write_encode_bytes (fun _ => 1) 0 [] 0 = (-1, fun _ => 1) ∧
    write_encode_bytes_with_header (fun _ => 1) 0 [] 0 3 5 = (-1, fun _ => 1) ∧
    read_decode_bytes (fun _ => 7) 0 (fun _ => 0) 0 7 = (-1, fun _ => 7) ∧
    read_decode_bytes_with_header (fun _ => 7) 0 (fun _ => 0) 0 2 =
      (-1, fun _ => 7, 0, 0) :=
  ⟨c2_presence_bit_protocol.1 (fun _ => 1) 0 [] 0 ⟨0, by norm_num, by norm_num⟩,
   c2_presence_bit_protocol.2.1 (fun _ => 1) 0 [] 0 3 5 ⟨0, by norm_num, by norm_num⟩,
   c2_presence_bit_protocol.2.2.1 (fun _ => 7) 0 (fun _ => 0) 0 7
     ⟨0, by norm_num, by norm_num⟩,
   c2_presence_bit_protocol.2.2.2 (fun _ => 7) 0 (fun _ => 0) 0 2
     ⟨0, by norm_num, by norm_num⟩⟩

/-! ## Message layout

A request of type `t` with payload `data` of length `L` occupies
`blocksFor (L + 5)` blocks; the byte stream it encodes is the 5-byte
header `{t, size-LE32}` followed by the payload, zero-padded to a
multiple of 7.  `msgByte` is byte `n` of that stream. -/

def msgByte (t L : Nat) (data : List Nat) : Nat → Nat := fun n =>
  if n = 0 then t % 256
  else if n < 5 then (((L + 5) % 2 ^ 32) >>> (8 * (n - 1))) &&& 0xff
  else if n < L + 5 then data.getD (n - 5) 0
  else 0

/-- A freshly drained ring: all presence bits cleared, both cached
pointers at offset `p`, nothing in the buffer. -/
def drainedArea (size p w r : Nat) : MemipcArea :=
  ⟨fun _ => 0, p, p, size, 0, w, r⟩

/-- The writer's cached read state after the catch-up scan at the top of
`memipc_add_req`. -/
def addSync (area : MemipcArea) : Nat × Nat :=
  writerSync area.buf area.size area.rptr area.inbuffer

/-- `blocks_available_1 + blocks_available_2` of `memipc_add_req`,
computed against the freshly synced read pointer: the free blocks
between the write pointer and the read pointer, both the contiguous and
the wrapped-around region. -/
def blocksAvailable (area : MemipcArea) : Nat :=
  let rp := (addSync area).1
  (if area.wptr < rp then (rp - area.wptr) / 8 else (area.size - area.wptr) / 8) +
    (if area.wptr < rp then 0 else rp / 8)

theorem blocksFor_eq_ceil (n : Nat) : blocksFor n = (n + 6) / 7 := by
  unfold blocksFor
  split <;> omega

theorem le_seven_mul_blocksFor (n : Nat) : n ≤ 7 * blocksFor n := by
  unfold blocksFor
  split <;> omega

theorem seven_mul_lt_of_lt_blocksFor {m n : Nat} (h : m < blocksFor n) :
    7 * m < n := by
  unfold blocksFor at h
  split at h <;> omega

theorem blocksFor_pos {n : Nat} (h : 0 < n) : 0 < blocksFor n := by
  unfold blocksFor
  split <;> omega

/-- `encBlock` only looks at source positions 0–6. -/
theorem encBlock_congr {s s' : Nat → Nat} (h : ∀ j < 7, s j = s' j) :
    ∀ j, encBlock s j = encBlock s' j := by
  intro j
  have h0 := h 0 (by norm_num)
  have h1 := h 1 (by norm_num)
  have h2 := h 2 (by norm_num)
  have h3 := h 3 (by norm_num)
  have h4 := h 4 (by norm_num)
  have h5 := h 5 (by norm_num)
  have h6 := h 6 (by norm_num)
  rcases j with _ | _ | _ | _ | _ | _ | _ | _ | j <;>
    simp [encBlock, h0, h1, h2, h3, h4, h5, h6]

/-- `decBlock` only looks at stored positions 0–7. -/
theorem decBlock_congr {e e' : Nat → Nat} (h : ∀ j < 8, e j = e' j) :
    ∀ j, decBlock e j = decBlock e' j := by
  intro j
  have h0 := h 0 (by norm_num)
  have h1 := h 1 (by norm_num)
  have h2 := h 2 (by norm_num)
  have h3 := h 3 (by norm_num)
  have h4 := h 4 (by norm_num)
  have h5 := h 5 (by norm_num)
  have h6 := h 6 (by norm_num)
  have h7 := h 7 (by norm_num)
  rcases j with _ | _ | _ | _ | _ | _ | _ | _ | j <;>
    simp [decBlock, h0, h1, h2, h3, h4, h5, h6, h7]

/-- An all-presence-clear block accepts the write. -/
theorem write_encode_bytes_ok (buf : Buf) (d : Nat) (src : List Nat) (size : Nat)
    (h : ∀ j < 8, buf (d + j) % 2 = 0) :
    write_encode_bytes buf d src size =
      (0, writeBlockAt buf d
        (encBlock (fun j => if j < size then src.getD j 0 else 0))) := by
  unfold write_encode_bytes
  rw [if_neg]
  rw [Nat.one_and_eq_mod_two]
  have h0 := h 0 (by norm_num)
  have h1 := h 1 (by norm_num)
  have h2 := h 2 (by norm_num)
  have h3 := h 3 (by norm_num)
  have h4 := h 4 (by norm_num)
  have h5 := h 5 (by norm_num)
  have h6 := h 6 (by norm_num)
  have h7 := h 7 (by norm_num)
  simp only [Nat.add_zero] at h0
  intro hc
  have := (orChain8_odd (buf d) (buf (d + 1)) (buf (d + 2)) (buf (d + 3))
    (buf (d + 4)) (buf (d + 5)) (buf (d + 6)) (buf (d + 7))).1 (by omega)
  omega

theorem write_encode_bytes_with_header_ok (buf : Buf) (d : Nat) (src : List Nat)
    (size t msize : Nat) (h : ∀ j < 8, buf (d + j) % 2 = 0) :
    write_encode_bytes_with_header buf d src size t msize =
      (0, writeBlockAt buf d (encBlock (headerSrc t msize src size))) := by
  unfold write_encode_bytes_with_header
  rw [if_neg]
  rw [Nat.one_and_eq_mod_two]
  have h0 := h 0 (by norm_num)
  have h1 := h 1 (by norm_num)
  have h2 := h 2 (by norm_num)
  have h3 := h 3 (by norm_num)
  have h4 := h 4 (by norm_num)
  have h5 := h 5 (by norm_num)
  have h6 := h 6 (by norm_num)
  have h7 := h 7 (by norm_num)
  simp only [Nat.add_zero] at h0
  intro hc
  have := (orChain8_odd (buf d) (buf (d + 1)) (buf (d + 2)) (buf (d + 3))
    (buf (d + 4)) (buf (d + 5)) (buf (d + 6)) (buf (d + 7))).1 (by omega)
  omega

/-- A block whose eight presence bits are all set accepts the read. -/
theorem read_decode_bytes_ok (dst : Buf) (dstBase : Nat) (buf : Buf) (s : Nat)
    (size : Nat) (h : ∀ j < 8, buf (s + j) % 2 = 1) :
    read_decode_bytes dst dstBase buf s size =
      (0, fun q => if dstBase ≤ q ∧ q < dstBase + (if size ≤ 7 then size else 0)
        then decBlock (fun j => buf (s + j)) (q - dstBase) else dst q) := by
  have hall := (andChain8_odd (buf (s + 0)) (buf (s + 1)) (buf (s + 2)) (buf (s + 3))
    (buf (s + 4)) (buf (s + 5)) (buf (s + 6)) (buf (s + 7))).2
    ⟨h 0 (by norm_num), h 1 (by norm_num), h 2 (by norm_num), h 3 (by norm_num),
     h 4 (by norm_num), h 5 (by norm_num), h 6 (by norm_num), h 7 (by norm_num)⟩
  unfold read_decode_bytes
  rw [if_neg (by simp only [Nat.one_and_eq_mod_two, ne_eq, not_not]; omega)]

theorem read_decode_bytes_with_header_ok (dst : Buf) (dstBase : Nat) (buf : Buf)
    (s : Nat) (size : Nat) (h : ∀ j < 8, buf (s + j) % 2 = 1) :
    read_decode_bytes_with_header dst dstBase buf s size =
      ((0 : Int),
        (match size with
          | 2 => fun q => if q = dstBase then decB5 (buf (s + 5)) (buf (s + 6))
              else if q = dstBase + 1 then decB6 (buf (s + 6)) (buf (s + 7)) else dst q
          | 1 => fun q => if q = dstBase then decB5 (buf (s + 5)) (buf (s + 6)) else dst q
          | _ => dst : Buf),
        decB0 (buf (s + 0)) (buf (s + 1)),
        (decB4 (buf (s + 4)) (buf (s + 5))) <<< 24 |||
          (decB3 (buf (s + 3)) (buf (s + 4))) <<< 16 |||
          (decB2 (buf (s + 2)) (buf (s + 3))) <<< 8 |||
          decB1 (buf (s + 1)) (buf (s + 2))) := by
  have hall := (andChain8_odd (buf (s + 0)) (buf (s + 1)) (buf (s + 2)) (buf (s + 3))
    (buf (s + 4)) (buf (s + 5)) (buf (s + 6)) (buf (s + 7))).2
    ⟨h 0 (by norm_num), h 1 (by norm_num), h 2 (by norm_num), h 3 (by norm_num),
     h 4 (by norm_num), h 5 (by norm_num), h 6 (by norm_num), h 7 (by norm_num)⟩
  unfold read_decode_bytes_with_header
  rw [if_neg (by simp only [Nat.one_and_eq_mod_two, ne_eq, not_not]; omega)]

/-! ## Characterisation of the `memipc_add_req` write loops -/

/-- The source bytes handed to `write_encode_bytes` for (non-header)
message block `M` are bytes `7M .. 7M+6` of the message stream. -/
theorem nonheaderSrc_eq_msgByte (t L : Nat) (data : List Nat)
    (hlen : data.length = L) (M : Nat) (hM : 1 ≤ M) (hran : 7 * M < L + 5) :
    ∀ j < 7,
      (if j < min 7 (L - (7 * M + 2 - 7)) then (data.drop (7 * M + 2 - 7)).getD j 0
        else 0) = msgByte t L data (7 * M + j) := by
  intro j hj
  have hdrop : (data.drop (7 * M + 2 - 7)).getD j 0 = data.getD (7 * M + 2 - 7 + j) 0 := by
    simp [List.getD_eq_getElem?_getD, List.getElem?_drop]
  unfold msgByte
  rw [if_neg (show ¬(7 * M + j = 0) by omega), if_neg (show ¬(7 * M + j < 5) by omega)]
  by_cases hlt : j < min 7 (L - (7 * M + 2 - 7))
  · rw [if_pos hlt, if_pos (show 7 * M + j < L + 5 by omega), hdrop]
    congr 1
    omega
  · rw [if_neg hlt, if_neg (show ¬(7 * M + j < L + 5) by omega)]

/-- The source bytes handed to `write_encode_bytes_with_header` are bytes
`0 .. 6` of the message stream. -/
theorem headerSrc_eq_msgByte (t L : Nat) (data : List Nat) :
    ∀ j < 7, headerSrc t ((L + 5) % 2 ^ 32) data (min 2 L) j = msgByte t L data j := by
  have hmid : ∀ n, 1 ≤ n → n < 5 →
      msgByte t L data n = (((L + 5) % 2 ^ 32) >>> (8 * (n - 1))) &&& 0xff := by
    intro n h1 h2
    unfold msgByte
    rw [if_neg (show ¬(n = 0) by omega), if_pos (show n < 5 by omega)]
  intro j hj
  interval_cases j
  · simp [headerSrc, msgByte]
  · rw [hmid 1 (by norm_num) (by norm_num)]
    show ((L + 5) % 2 ^ 32) &&& 255 = (((L + 5) % 2 ^ 32) >>> (8 * (1 - 1))) &&& 255
    rw [show (8 * (1 - 1) : ℕ) = 0 by norm_num, Nat.shiftRight_zero]
  · rw [hmid 2 (by norm_num) (by norm_num)]
    show (((L + 5) % 2 ^ 32) >>> 8) &&& 255 = (((L + 5) % 2 ^ 32) >>> (8 * (2 - 1))) &&& 255
    rw [show (8 * (2 - 1) : ℕ) = 8 by norm_num]
  · rw [hmid 3 (by norm_num) (by norm_num)]
    show (((L + 5) % 2 ^ 32) >>> 16) &&& 255 = (((L + 5) % 2 ^ 32) >>> (8 * (3 - 1))) &&& 255
    rw [show (8 * (3 - 1) : ℕ) = 16 by norm_num]
  · rw [hmid 4 (by norm_num) (by norm_num)]
    show (((L + 5) % 2 ^ 32) >>> 24) &&& 255 = (((L + 5) % 2 ^ 32) >>> (8 * (4 - 1))) &&& 255
    rw [show (8 * (4 - 1) : ℕ) = 24 by norm_num]
  · show (if 1 ≤ min 2 L then data.getD 0 0 else 0) = msgByte t L data 5
    unfold msgByte
    rw [if_neg (show ¬(5 = 0) by omega), if_neg (show ¬(5 < 5) by omega)]
    by_cases hL : 1 ≤ L
    · rw [if_pos (show 1 ≤ min 2 L by omega), if_pos (show 5 < L + 5 by omega)]
    · rw [if_neg (show ¬(1 ≤ min 2 L) by omega), if_neg (show ¬(5 < L + 5) by omega)]
  · show (if 2 ≤ min 2 L then data.getD 1 0 else 0) = msgByte t L data 6
    unfold msgByte
    rw [if_neg (show ¬(6 = 0) by omega), if_neg (show ¬(6 < 5) by omega)]
    by_cases hL : 2 ≤ L
    · rw [if_pos (show 2 ≤ min 2 L by omega), if_pos (show 6 < L + 5 by omega)]
    · rw [if_neg (show ¬(2 ≤ min 2 L) by omega), if_neg (show ¬(6 < L + 5) by omega)]

/-- Full characterisation of one write loop of `memipc_add_req` when all
`n` target blocks have clear presence bits: it succeeds, touches exactly
the bytes of those blocks, stores the encoded message blocks
`srcExtra .. srcExtra+n-1` there, and records the writes in descending
block order with only the `srcExtra = 0`, block-0 write flagged as the
header write. -/
theorem addWriteRun_spec (t L : Nat) (data : List Nat) (hlen : data.length = L)
    (base srcExtra : Nat) :
    ∀ (n : Nat) (buf : Buf),
      srcExtra + n ≤ blocksFor (L + 5) →
      (∀ m < n, ∀ j < 8, buf (base + m * 8 + j) % 2 = 0) →
      (addWriteRun t L data base srcExtra n buf).1 = 0 ∧
      (∀ q, (q < base ∨ base + n * 8 ≤ q) →
        (addWriteRun t L data base srcExtra n buf).2.1 q = buf q) ∧
      (∀ m < n, ∀ j < 8,
        (addWriteRun t L data base srcExtra n buf).2.1 (base + m * 8 + j) =
          encBlock (fun u => msgByte t L data (7 * (srcExtra + m) + u)) j) ∧
      (addWriteRun t L data base srcExtra n buf).2.2 =
        (List.range n).reverse.map
          (fun m => (base + m * 8, decide (srcExtra = 0 ∧ m = 0))) := by
  intro n
  induction n with
  | zero =>
    intro buf _ _
    exact ⟨rfl, fun q _ => rfl, fun m hm => absurd hm (Nat.not_lt_zero m),
      by simp [addWriteRun]⟩
  | succ n ih =>
    intro buf hbc hpres
    have hpresn : ∀ j < 8, buf (base + n * 8 + j) % 2 = 0 :=
      fun j hj => hpres n (Nat.lt_succ_self n) j hj
    by_cases hhdr : srcExtra = 0 ∧ n = 0
    · -- the header block: srcOff = 2 < 7
      obtain ⟨hs0, hn0⟩ := hhdr
      subst hs0; subst hn0
      have hwrite := write_encode_bytes_with_header_ok buf (base + 0 * 8) data (min 2 L) t
        ((L + 5) % 2 ^ 32) hpresn
      have hstep : addWriteRun t L data base 0 1 buf =
          (0, writeBlockAt buf (base + 0 * 8)
            (encBlock (headerSrc t ((L + 5) % 2 ^ 32) data (min 2 L))),
            [(base + 0 * 8, true)]) := by
        simp only [addWriteRun]
        rw [if_neg (show ¬(7 ≤ 0 * 7 + (0 + 1) * 7 - 5) by norm_num)]
        rw [show (0 * 7 + (0 + 1) * 7 - 5 : ℕ) = 2 from by norm_num]
        rw [hwrite]
        simp
      rw [hstep]
      refine ⟨rfl, ?_, ?_, by simp [List.range_succ]⟩
      · intro q hq
        simp only [writeBlockAt]
        rw [if_neg (by omega)]
      · intro m hm j hj
        have hm0 : m = 0 := by omega
        subst hm0
        simp only [writeBlockAt]
        rw [if_pos (by omega)]
        have hqj : base + 0 * 8 + j - (base + 0 * 8) = j := by omega
        rw [hqj]
        exact encBlock_congr (headerSrc_eq_msgByte t L data) j
    · -- a payload block: srcOff = 7*(srcExtra+n+1) - 5 ≥ 7
      have hge : 7 ≤ srcExtra * 7 + (n + 1) * 7 - 5 := by omega
      have hM1 : 1 ≤ srcExtra + n := by omega
      have hMr : 7 * (srcExtra + n) < L + 5 :=
        seven_mul_lt_of_lt_blocksFor (show srcExtra + n < blocksFor (L + 5) by omega)
      have hsrcoff : srcExtra * 7 + (n + 1) * 7 - 5 - 7 = 7 * (srcExtra + n) + 2 - 7 := by
        omega
      have hwrite := write_encode_bytes_ok buf (base + n * 8)
        (data.drop (srcExtra * 7 + (n + 1) * 7 - 5 - 7))
        (min 7 (L - (srcExtra * 7 + (n + 1) * 7 - 5 - 7))) hpresn
      set buf' := writeBlockAt buf (base + n * 8)
        (encBlock (fun j =>
          if j < min 7 (L - (srcExtra * 7 + (n + 1) * 7 - 5 - 7))
          then (data.drop (srcExtra * 7 + (n + 1) * 7 - 5 - 7)).getD j 0
          else 0)) with hbuf'
      have hpres' : ∀ m < n, ∀ j < 8, buf' (base + m * 8 + j) % 2 = 0 := by
        intro m hm j hj
        rw [hbuf']
        simp only [writeBlockAt]
        rw [if_neg (by omega)]
        exact hpres m (by omega) j hj
      obtain ⟨ihret, ihout, ihtgt, ihtr⟩ := ih buf' (by omega) hpres'
      have hstep : addWriteRun t L data base srcExtra (n + 1) buf =
          ((addWriteRun t L data base srcExtra n buf').1,
            (addWriteRun t L data base srcExtra n buf').2.1,
            (base + n * 8, false) ::
              (addWriteRun t L data base srcExtra n buf').2.2) := by
        simp only [addWriteRun]
        rw [if_pos hge, hwrite]
        rcases hrec : addWriteRun t L data base srcExtra n buf' with ⟨r, buf2, tr⟩
        rfl
      have henc : ∀ j,
          encBlock (fun u =>
            if u < min 7 (L - (srcExtra * 7 + (n + 1) * 7 - 5 - 7))
            then (data.drop (srcExtra * 7 + (n + 1) * 7 - 5 - 7)).getD u 0
            else 0) j =
          encBlock (fun u => msgByte t L data (7 * (srcExtra + n) + u)) j := by
        apply encBlock_congr
        intro u hu
        rw [hsrcoff]
        exact nonheaderSrc_eq_msgByte t L data hlen (srcExtra + n) hM1 hMr u hu
      rw [hstep]
      refine ⟨ihret, ?_, ?_, ?_⟩
      · intro q hq
        rw [ihout q (by omega)]
        rw [hbuf']
        simp only [writeBlockAt]
        rw [if_neg (by omega)]
      · intro m hm j hj
        rcases Nat.lt_or_ge m n with hmn | hmn
        · exact ihtgt m hmn j hj
        · have hmn0 : m = n := by omega
          subst hmn0
          rw [ihout (base + m * 8 + j) (Or.inr (by omega))]
          rw [hbuf']
          simp only [writeBlockAt]
          rw [if_pos (by omega)]
          have hqj : base + m * 8 + j - (base + m * 8) = j := by omega
          rw [hqj]
          exact henc j
      · rw [ihtr]
        have hrr : (List.range (n + 1)).reverse = n :: (List.range n).reverse := by
          rw [List.range_succ]
          simp
        rw [hrr]
        simp only [List.map_cons]
        congr 1
        simp only [Prod.mk.injEq]
        refine ⟨trivial, ?_⟩
        simp [hhdr]

/-! ## `memipc_add_req` on a drained ring -/

theorem mod_id {a n : Nat} (h : a < n) : a % n = a := Nat.mod_eq_of_lt h

theorem mod_shift {a n : Nat} (h1 : n ≤ a) (h2 : a < 2 * n) : a % n = a - n := by
  rw [Nat.mod_eq_sub_mod h1]
  exact Nat.mod_eq_of_lt (by omega)

/-- Running `memipc_add_req` on a drained ring with enough room: it
succeeds, advances the write pointer past the message (wrapping), adds
`blocks * 8` to `inbuffer`, stores the encoded message blocks at the
(wrapped) offsets following `p`, and leaves every other byte clear. -/
theorem memipc_add_req_drained_spec (w r size p t L : Nat) (data : List Nat)
    (hlen : data.length = L)
    (h8 : 8 ∣ size) (hp8 : 8 ∣ p) (hps : p < size)
    (hbc : blocksFor (L + 5) ≤ size / 8) :
    (memipc_add_req w (drainedArea size p w r) t L data).ret = 0 ∧
    (memipc_add_req w (drainedArea size p w r) t L data).area.rptr = p ∧
    (memipc_add_req w (drainedArea size p w r) t L data).area.wptr =
      (p + blocksFor (L + 5) * 8) % size ∧
    (memipc_add_req w (drainedArea size p w r) t L data).area.inbuffer =
      blocksFor (L + 5) * 8 ∧
    (memipc_add_req w (drainedArea size p w r) t L data).area.size = size ∧
    (memipc_add_req w (drainedArea size p w r) t L data).area.writer = w ∧
    (memipc_add_req w (drainedArea size p w r) t L data).area.reader = r ∧
    (∀ m, m < blocksFor (L + 5) → ∀ j, j < 8 →
      (memipc_add_req w (drainedArea size p w r) t L data).area.buf
          ((p + (m * 8 + j)) % size) =
        encBlock (fun u => msgByte t L data (7 * m + u)) j) ∧
    (∀ q, q < size → blocksFor (L + 5) * 8 ≤ (q + size - p) % size →
      (memipc_add_req w (drainedArea size p w r) t L data).area.buf q = 0) := by
  obtain ⟨a8, ha⟩ := h8
  obtain ⟨b8, hb⟩ := hp8
  have hsz : 0 < size := by omega
  have htot : L + 5 ≤ 7 * blocksFor (L + 5) := le_seven_mul_blocksFor (L + 5)
  have hbc8 : blocksFor (L + 5) * 8 ≤ size := by omega
  have hsync : writerSync (fun _ => 0) size p 0 = (p, 0) := rfl
  by_cases hwrap : blocksFor (L + 5) > (size - p) / 8
  · -- the message wraps around the end of the area
    have hav1 : (size - p) / 8 * 8 = size - p := by omega
    have hle : (blocksFor (L + 5) - (size - p) / 8) * 8 ≤ p := by omega
    obtain ⟨r1ret, r1out, r1tgt, r1tr⟩ :=
      addWriteRun_spec t L data hlen 0 ((size - p) / 8)
        (blocksFor (L + 5) - (size - p) / 8) (fun _ => 0)
        (by omega) (fun m hm j hj => rfl)
    rcases hrec1 : addWriteRun t L data 0 ((size - p) / 8)
        (blocksFor (L + 5) - (size - p) / 8) (fun _ => 0) with ⟨e1, buf1, tr1⟩
    rw [hrec1] at r1ret r1out r1tgt r1tr
    simp only at r1ret r1out r1tgt r1tr
    have hpres1 : ∀ m, m < (size - p) / 8 → ∀ j, j < 8 → buf1 (p + m * 8 + j) % 2 = 0 := by
      intro m hm j hj
      rw [r1out (p + m * 8 + j) (Or.inr (by omega))]
    obtain ⟨r2ret, r2out, r2tgt, r2tr⟩ :=
      addWriteRun_spec t L data hlen p 0 ((size - p) / 8) buf1
        (by omega) (fun m hm j hj => hpres1 m hm j hj)
    rcases hrec2 : addWriteRun t L data p 0 ((size - p) / 8) buf1 with ⟨e2, buf2, tr2⟩
    rw [hrec2] at r2ret r2out r2tgt r2tr
    simp only at r2ret r2out r2tgt r2tr
    have hgoal : memipc_add_req w (drainedArea size p w r) t L data =
        ⟨0, ⟨buf2, (blocksFor (L + 5) - (size - p) / 8) * 8, p, size,
          0 + blocksFor (L + 5) * 8, w, r⟩, tr1 ++ tr2⟩ := by
      simp only [memipc_add_req, drainedArea, hsync]
      simp only [lt_self_iff_false, if_false]
      rw [if_neg (by simp)]
      rw [if_neg (show ¬((0 : ℕ) = size) by omega)]
      rw [if_neg (show ¬(blocksFor (L + 5) > (size - p) / 8 + p / 8) by omega)]
      rw [if_pos (show blocksFor (L + 5) > (size - p) / 8 from hwrap)]
      rw [hrec1]
      rw [if_neg (by simp [r1ret])]
      rw [hrec2]
      rw [if_neg (by simp [r2ret])]
    rw [hgoal]
    have hwptr : (blocksFor (L + 5) - (size - p) / 8) * 8 =
        (p + blocksFor (L + 5) * 8) % size := by
      rw [mod_shift (by omega) (by omega)]
      omega
    refine ⟨rfl, rfl, hwptr, Nat.zero_add _, rfl, rfl, rfl, ?_, ?_⟩
    · intro m hm j hj
      show buf2 ((p + (m * 8 + j)) % size) = encBlock (fun u => msgByte t L data (7 * m + u)) j
      by_cases hm1 : m < (size - p) / 8
      · rw [mod_id (show p + (m * 8 + j) < size by omega)]
        have htg := r2tgt m hm1 j hj
        simp only [Nat.zero_add] at htg
        rw [show p + (m * 8 + j) = p + m * 8 + j by omega]
        exact htg
      · have hrw : (p + (m * 8 + j)) % size = (m - (size - p) / 8) * 8 + j := by
          rw [mod_shift (by omega) (by omega)]
          omega
        rw [hrw]
        rw [r2out ((m - (size - p) / 8) * 8 + j) (Or.inl (by omega))]
        have htg := r1tgt (m - (size - p) / 8) (by omega) j hj
        have hms : (size - p) / 8 + (m - (size - p) / 8) = m := by omega
        simp only [Nat.zero_add, hms] at htg
        exact htg
    · intro q hq hrel
      show buf2 q = 0
      by_cases hqp : p ≤ q
      · exfalso
        rw [mod_shift (by omega) (by omega)] at hrel
        omega
      · rw [mod_id (show q + size - p < size by omega)] at hrel
        rw [r2out q (Or.inl (by omega))]
        exact r1out q (Or.inr (by omega))
  · -- no wraparound
    obtain ⟨r1ret, r1out, r1tgt, r1tr⟩ :=
      addWriteRun_spec t L data hlen p 0 (blocksFor (L + 5)) (fun _ => 0)
        (by omega) (fun m hm j hj => rfl)
    rcases hrec1 : addWriteRun t L data p 0 (blocksFor (L + 5)) (fun _ => 0)
      with ⟨e1, buf1, tr1⟩
    rw [hrec1] at r1ret r1out r1tgt r1tr
    simp only at r1ret r1out r1tgt r1tr
    have hfit : blocksFor (L + 5) * 8 ≤ size - p := by omega
    have hgoal : memipc_add_req w (drainedArea size p w r) t L data =
        ⟨0, ⟨buf1,
          (if p + blocksFor (L + 5) * 8 ≥ size then 0 else p + blocksFor (L + 5) * 8),
          p, size, 0 + blocksFor (L + 5) * 8, w, r⟩, tr1⟩ := by
      simp only [memipc_add_req, drainedArea, hsync]
      simp only [lt_self_iff_false, if_false]
      rw [if_neg (by simp)]
      rw [if_neg (show ¬((0 : ℕ) = size) by omega)]
      rw [if_neg (show ¬(blocksFor (L + 5) > (size - p) / 8 + p / 8) by omega)]
      rw [if_neg (show ¬(blocksFor (L + 5) > (size - p) / 8) from hwrap)]
      rw [hrec1]
      rw [if_neg (by simp [r1ret])]
    rw [hgoal]
    have hwptr : (if p + blocksFor (L + 5) * 8 ≥ size then 0
        else p + blocksFor (L + 5) * 8) = (p + blocksFor (L + 5) * 8) % size := by
      by_cases hge : p + blocksFor (L + 5) * 8 ≥ size
      · rw [if_pos hge]
        have hpe : p + blocksFor (L + 5) * 8 = size := by omega
        rw [hpe, Nat.mod_self]
      · rw [if_neg hge, mod_id (by omega)]
    refine ⟨rfl, rfl, hwptr, Nat.zero_add _, rfl, rfl, rfl, ?_, ?_⟩
    · intro m hm j hj
      show buf1 ((p + (m * 8 + j)) % size) = encBlock (fun u => msgByte t L data (7 * m + u)) j
      rw [mod_id (show p + (m * 8 + j) < size by omega)]
      have htg := r1tgt m hm j hj
      simp only [Nat.zero_add] at htg
      rw [show p + (m * 8 + j) = p + m * 8 + j by omega]
      exact htg
    · intro q hq hrel
      show buf1 q = 0
      by_cases hqp : p ≤ q
      · rw [mod_shift (by omega) (by omega)] at hrel
        exact r1out q (Or.inr (by omega))
      · rw [mod_id (show q + size - p < size by omega)] at hrel
        exact r1out q (Or.inl (by omega))

/-! ## Characterisation of `memipc_get_req` -/

/-- The consumer catch-up scan: starting at `ptr` with cached count
`inb`, if the next `m` ring bytes are all marked present and the scan
then stops (buffer exhausted or a clear presence bit), the cached write
pointer advances by `m` (wrapping) and `inb` grows by `m`. -/
theorem readerSync_run (buf : Buf) (size : Nat) :
    ∀ (m ptr inb : Nat), ptr < size → inb + m ≤ size →
    (∀ x < m, buf ((ptr + x) % size) % 2 = 1) →
    (inb + m = size ∨ buf ((ptr + m) % size) % 2 = 0) →
    readerSync buf size ptr inb (size - inb) = ((ptr + m) % size, inb + m) := by
  intro m
  induction m with
  | zero =>
    intro ptr inb hp hm hodd hstop
    have hres : ((ptr + 0) % size, inb + 0) = (ptr, inb) := by
      rw [Nat.add_zero, Nat.add_zero, mod_id hp]
    rw [hres]
    rcases hstop with hfull | heven
    · rw [show size - inb = 0 by omega]
      rfl
    · rw [Nat.add_zero, mod_id hp] at heven
      cases hfuel : size - inb with
      | zero => rfl
      | succ f =>
        simp only [readerSync]
        rw [if_neg (by rw [Nat.and_one_is_mod]; omega)]
  | succ m ih =>
    intro ptr inb hp hm hodd hstop
    have h0 := hodd 0 (by omega)
    rw [Nat.add_zero, mod_id hp] at h0
    rw [show size - inb = (size - (inb + 1)) + 1 by omega]
    simp only [readerSync]
    rw [if_pos (by rw [Nat.and_one_is_mod]; omega)]
    have hptr : (if ptr + 1 ≥ size then 0 else ptr + 1) = (ptr + 1) % size := by
      by_cases h : ptr + 1 ≥ size
      · rw [if_pos h, show ptr + 1 = size by omega, Nat.mod_self]
      · rw [if_neg h, mod_id (by omega)]
    rw [hptr]
    have hres := ih ((ptr + 1) % size) (inb + 1) (Nat.mod_lt _ (by omega)) (by omega)
      (fun x hx => by
        rw [Nat.mod_add_mod, show ptr + 1 + x = ptr + (x + 1) by omega]
        exact hodd (x + 1) (by omega))
      (by
        rcases hstop with hfull | heven
        · exact Or.inl (by omega)
        · refine Or.inr ?_
          rw [Nat.mod_add_mod, show ptr + 1 + m = ptr + (m + 1) by omega]
          exact heven)
    rw [hres, Nat.mod_add_mod, show ptr + 1 + m = ptr + (m + 1) by omega,
      show inb + 1 + m = inb + (m + 1) by omega]

/-- Recomposition of the four little-endian size bytes extracted by
`read_decode_bytes_with_header`. -/
theorem recomposeLE (m : Nat) (hm : m < 2 ^ 32) :
    ((m >>> 24) &&& 255) <<< 24 ||| ((m >>> 16) &&& 255) <<< 16 |||
      ((m >>> 8) &&& 255) <<< 8 ||| (m &&& 255) = m := by
  apply Nat.eq_of_testBit_eq
  intro i
  rcases Nat.lt_or_ge i 32 with h | h
  · interval_cases i <;> simp [tb255]
  · have hb : ∀ x : Nat, x < 2 ^ 32 → x.testBit i = false := fun x hx =>
      Nat.testBit_eq_false_of_lt
        (lt_of_lt_of_le hx (Nat.pow_le_pow_right (by norm_num) h))
    have hsl : ∀ (x k : Nat), k ≤ 24 → ((x &&& 255) <<< k) < 2 ^ 32 := by
      intro x k hk
      rw [Nat.shiftLeft_eq]
      calc (x &&& 255) * 2 ^ k ≤ 255 * 2 ^ 24 := by
            apply Nat.mul_le_mul Nat.and_le_right
            exact Nat.pow_le_pow_right (by norm_num) hk
        _ < 2 ^ 32 := by norm_num
    rw [hb m hm]
    apply hb
    apply Nat.or_lt_two_pow
    apply Nat.or_lt_two_pow
    apply Nat.or_lt_two_pow
    · exact hsl (m >>> 24) 24 (by norm_num)
    · exact hsl (m >>> 16) 16 (by norm_num)
    · exact hsl (m >>> 8) 8 (by norm_num)
    · exact lt_of_le_of_lt Nat.and_le_right (by norm_num)

/-- Message bytes are machine bytes. -/
theorem msgByte_lt (t L : Nat) (data : List Nat) (hbytes : ∀ b ∈ data, b < 256) :
    ∀ n, msgByte t L data n < 256 := by
  intro n
  unfold msgByte
  split
  · exact Nat.mod_lt _ (by norm_num)
  · split
    · exact lt_of_le_of_lt Nat.and_le_right (by norm_num)
    · split
      · rcases h : data[n - 5]? with _ | b
        · simp [List.getD_eq_getElem?_getD, h]
        · have hmem : b ∈ data := List.getElem?_mem h
          simp [List.getD_eq_getElem?_getD, h]
          exact hbytes b hmem
      · norm_num

/-- Full characterisation of the block-reading loop of `memipc_get_req`
over `k` consecutive encoded message blocks: it succeeds, leaves the
caller buffer below `dstp` alone, copies the decoded payload bytes, and
(when only full blocks are read) advances the destination cursor by
`7` per block. -/
theorem getReadRun_spec (total : Nat) (buf : Buf) (msg : Nat → Nat)
    (hmsg : ∀ n, msg n < 256) :
    ∀ (k addr bIdx : Nat) (dst : Buf) (dstp : Nat),
      1 ≤ bIdx → bIdx + k ≤ blocksFor total →
      (∀ i < k, ∀ j < 8, buf (addr + i * 8 + j) =
        encBlock (fun u => msg (7 * (bIdx + i) + u)) j) →
      (getReadRun total buf addr bIdx k dst dstp).1 = 0 ∧
      (∀ q, q < dstp → (getReadRun total buf addr bIdx k dst dstp).2.1 q = dst q) ∧
      (∀ i < k, ∀ u, u < min 7 (total - (bIdx + i) * 7) →
        (getReadRun total buf addr bIdx k dst dstp).2.1 (dstp + i * 7 + u) =
          msg (7 * (bIdx + i) + u)) ∧
      (7 * (bIdx + k) ≤ total →
        (getReadRun total buf addr bIdx k dst dstp).2.2 = dstp + k * 7) := by
  intro k
  induction k with
  | zero =>
    intro addr bIdx dst dstp hb1 hbk hblocks
    exact ⟨rfl, fun q _ => rfl, fun i hi => absurd hi (Nat.not_lt_zero i),
      fun _ => by simp [getReadRun]⟩
  | succ k ih =>
    intro addr bIdx dst dstp hb1 hbk hblocks
    have hblk0 : ∀ j < 8, buf (addr + j) = encBlock (fun u => msg (7 * bIdx + u)) j := by
      intro j hj
      have hb := hblocks 0 (by omega) j hj
      rw [show addr + 0 * 8 + j = addr + j by omega] at hb
      rw [hb]
      exact congrFun (congrArg _ (by funext u; rw [Nat.add_zero])) j
    have hodd : ∀ j < 8, buf (addr + j) % 2 = 1 := by
      intro j hj
      rw [hblk0 j hj]
      exact encBlock_odd _ j hj
    have hds : min 7 (total - bIdx * 7) ≤ 7 := Nat.min_le_left _ _
    have hdpos : 0 < total - bIdx * 7 := by
      have := seven_mul_lt_of_lt_blocksFor (show bIdx < blocksFor total by omega)
      omega
    have hstep : getReadRun total buf addr bIdx (k + 1) dst dstp =
        getReadRun total buf (addr + 8) (bIdx + 1) k
          (fun q => if dstp ≤ q ∧ q < dstp + (if min 7 (total - bIdx * 7) ≤ 7
              then min 7 (total - bIdx * 7) else 0)
            then decBlock (fun j => buf (addr + j)) (q - dstp) else dst q)
          (dstp + min 7 (total - bIdx * 7)) := by
      simp only [getReadRun]
      rw [read_decode_bytes_ok dst dstp buf addr (min 7 (total - bIdx * 7)) hodd]
      simp
    rw [hstep]
    set dst' : Buf := (fun q => if dstp ≤ q ∧ q < dstp + (if min 7 (total - bIdx * 7) ≤ 7
        then min 7 (total - bIdx * 7) else 0)
      then decBlock (fun j => buf (addr + j)) (q - dstp) else dst q) with hdst'
    have hblocks' : ∀ i < k, ∀ j < 8, buf (addr + 8 + i * 8 + j) =
        encBlock (fun u => msg (7 * (bIdx + 1 + i) + u)) j := by
      intro i hi j hj
      have hb := hblocks (i + 1) (by omega) j hj
      rw [show addr + (i + 1) * 8 + j = addr + 8 + i * 8 + j by omega] at hb
      rw [hb]
      exact congrFun (congrArg _ (by funext u; congr 1; omega)) j
    obtain ⟨ihret, ihlow, ihtgt, ihdstp⟩ :=
      ih (addr + 8) (bIdx + 1) dst' (dstp + min 7 (total - bIdx * 7))
        (by omega) (by omega) hblocks'
    have hdecoded : ∀ u, u < min 7 (total - bIdx * 7) →
        dst' (dstp + u) = msg (7 * bIdx + u) := by
      intro u hu
      have hcond : dstp ≤ dstp + u ∧ dstp + u < dstp +
          (if min 7 (total - bIdx * 7) ≤ 7 then min 7 (total - bIdx * 7) else 0) := by
        refine ⟨by omega, ?_⟩
        rw [if_pos hds]
        omega
      rw [hdst']
      simp only []
      rw [if_pos hcond]
      rw [show dstp + u - dstp = u by omega]
      rw [decBlock_congr hblk0 u]
      exact decBlock_encBlock (fun v => msg (7 * bIdx + v))
        (fun v hv => hmsg _) u (by omega)
    refine ⟨ihret, ?_, ?_, ?_⟩
    · intro q hq
      rw [ihlow q (by omega)]
      rw [hdst']
      simp only []
      rw [if_neg (show ¬(dstp ≤ q ∧ q < dstp +
          (if min 7 (total - bIdx * 7) ≤ 7 then min 7 (total - bIdx * 7) else 0)) from
        fun hc => absurd hc.1 (by omega))]
    · intro i hi u hu
      rcases Nat.eq_zero_or_pos i with hi0 | hi0
      · subst hi0
        rw [Nat.add_zero] at hu ⊢
        rw [show dstp + 0 * 7 + u = dstp + u by omega]
        rw [ihlow (dstp + u) (by omega)]
        exact hdecoded u hu
      · -- later blocks: the current block is full (7 bytes)
        have hfull : min 7 (total - bIdx * 7) = 7 := by
          have h1 : bIdx + 1 < blocksFor total := by omega
          have := seven_mul_lt_of_lt_blocksFor h1
          omega
        have htg := ihtgt (i - 1) (by omega) u (by
          have : bIdx + 1 + (i - 1) = bIdx + i := by omega
          rw [this]
          exact hu)
        rw [show bIdx + 1 + (i - 1) = bIdx + i by omega] at htg
        rw [hfull] at htg
        rw [show dstp + 7 + (i - 1) * 7 + u = dstp + i * 7 + u by omega] at htg
        rw [hfull]
        exact htg
    · intro htotk
      have hfull : min 7 (total - bIdx * 7) = 7 := by omega
      rw [hfull] at ihdstp ⊢
      rw [ihdstp (by omega)]
      omega

/-- Master lemma for `memipc_get_req` on a ring holding exactly one
encoded message of type `t` and payload `data` (as left by
`memipc_add_req` on a drained ring): with a large enough caller buffer the
call succeeds and returns the message intact; with a too-small buffer it
returns `-2` and consumes nothing (the presence bits, the read pointer and
the pending-byte count are all left covering the message). -/
theorem memipc_get_req_msg_spec
    (rd size p t L k0 cap t0 : Nat) (data : List Nat) (A : MemipcArea) (dst0 : Buf)
    (hlen : data.length = L) (hbytes : ∀ b ∈ data, b < 256) (ht : t < 256)
    (h8 : 8 ∣ size) (hp8 : 8 ∣ p) (hps : p < size) (hsz32 : size < 2 ^ 32)
    (hbc : blocksFor (L + 5) ≤ size / 8)
    (hrd : A.reader = rd) (hsz : A.size = size) (hrp : A.rptr = p)
    (hin : A.inbuffer = k0) (hwp : A.wptr = (p + k0) % size)
    (hk : k0 ≤ blocksFor (L + 5) * 8)
    (htgt : ∀ m, m < blocksFor (L + 5) → ∀ j, j < 8 →
      A.buf ((p + (m * 8 + j)) % size) = encBlock (fun u => msgByte t L data (7 * m + u)) j)
    (hz : ∀ q, q < size → blocksFor (L + 5) * 8 ≤ (q + size - p) % size → A.buf q = 0) :
    (L ≤ cap →
      (memipc_get_req rd A t0 cap dst0).ret = 0 ∧
      (memipc_get_req rd A t0 cap dst0).rtype = t ∧
      (memipc_get_req rd A t0 cap dst0).rsize = L ∧
      (∀ n, n < L → (memipc_get_req rd A t0 cap dst0).data n = data.getD n 0)) ∧
    (cap < L →
      (memipc_get_req rd A t0 cap dst0).ret = -2 ∧
      (memipc_get_req rd A t0 cap dst0).area.buf = A.buf ∧
      (memipc_get_req rd A t0 cap dst0).area.rptr = p ∧
      (memipc_get_req rd A t0 cap dst0).area.wptr = (p + blocksFor (L + 5) * 8) % size ∧
      (memipc_get_req rd A t0 cap dst0).area.inbuffer = blocksFor (L + 5) * 8 ∧
      (memipc_get_req rd A t0 cap dst0).area.size = size ∧
      (memipc_get_req rd A t0 cap dst0).area.reader = rd ∧
      (memipc_get_req rd A t0 cap dst0).rtype = t0 ∧
      (memipc_get_req rd A t0 cap dst0).rsize = cap) := by
  have hsz0 : 0 < size := by omega
  obtain ⟨a8, ha⟩ := h8
  obtain ⟨b8, hb⟩ := hp8
  have htot7 : L + 5 ≤ 7 * blocksFor (L + 5) := le_seven_mul_blocksFor (L + 5)
  have hbcpos : 0 < blocksFor (L + 5) := blocksFor_pos (by omega)
  have hbc8 : blocksFor (L + 5) * 8 ≤ size := by omega
  have htotsz : L + 5 ≤ size := by omega
  have htot32 : L + 5 < 2 ^ 32 := by omega
  have hmsg256 : ∀ n, msgByte t L data n < 256 := msgByte_lt t L data hbytes
  have hoddrel : ∀ x, x < blocksFor (L + 5) * 8 → A.buf ((p + x) % size) % 2 = 1 := by
    intro x hx
    have h1 := htgt (x / 8) (by omega) (x % 8) (by omega)
    rw [show x / 8 * 8 + x % 8 = x by omega] at h1
    rw [h1]
    exact encBlock_odd _ _ (by omega)
  have hW : readerSync A.buf size ((p + k0) % size) k0 (size - k0) =
      ((p + blocksFor (L + 5) * 8) % size, blocksFor (L + 5) * 8) := by
    have hstop : k0 + (blocksFor (L + 5) * 8 - k0) = size ∨
        A.buf (((p + k0) % size + (blocksFor (L + 5) * 8 - k0)) % size) % 2 = 0 := by
      by_cases hfull : blocksFor (L + 5) * 8 = size
      · exact Or.inl (by omega)
      · refine Or.inr ?_
        rw [Nat.mod_add_mod, show p + k0 + (blocksFor (L + 5) * 8 - k0) =
          p + blocksFor (L + 5) * 8 by omega]
        have hrel : blocksFor (L + 5) * 8 ≤
            ((p + blocksFor (L + 5) * 8) % size + size - p) % size := by
          have hple : p ≤ size := by omega
          rw [show (p + blocksFor (L + 5) * 8) % size + size - p =
            (p + blocksFor (L + 5) * 8) % size + (size - p) by omega]
          rw [Nat.mod_add_mod]
          rw [show p + blocksFor (L + 5) * 8 + (size - p) =
            blocksFor (L + 5) * 8 + size by omega]
          rw [Nat.add_mod_right]
          rw [mod_id (by omega)]
        rw [hz _ (Nat.mod_lt _ hsz0) hrel]
    have hrun := readerSync_run A.buf size (blocksFor (L + 5) * 8 - k0)
      ((p + k0) % size) k0 (Nat.mod_lt _ hsz0) (by omega)
      (fun x hx => by
        rw [Nat.mod_add_mod, show p + k0 + x = p + (k0 + x) by omega]
        exact hoddrel (k0 + x) (by omega))
      hstop
    rw [hrun, Nat.mod_add_mod, show p + k0 + (blocksFor (L + 5) * 8 - k0) =
      p + blocksFor (L + 5) * 8 by omega,
      show k0 + (blocksFor (L + 5) * 8 - k0) = blocksFor (L + 5) * 8 by omega]
  have hpj : ∀ j, j < 8 → A.buf (p + j) = encBlock (fun u => msgByte t L data u) j := by
    intro j hj
    have h1 := htgt 0 hbcpos j hj
    simp only [Nat.zero_mul, Nat.zero_add, Nat.mul_zero] at h1
    rw [mod_id (by omega)] at h1
    exact h1
  have hoddp : ∀ j, j < 8 → A.buf (p + j) % 2 = 1 := by
    intro j hj
    rw [hpj j hj]
    exact encBlock_odd _ j hj
  have hhdr := read_decode_bytes_with_header_ok dst0 0 A.buf p 2 hoddp
  have ht_out : decB0 (A.buf (p + 0)) (A.buf (p + 1)) = t := by
    rw [hpj 0 (by norm_num), hpj 1 (by norm_num)]
    show decB0 (encB0 (msgByte t L data 0))
      (encB1 (msgByte t L data 0) (msgByte t L data 1)) = t
    rw [rt0 (hmsg256 0) (hmsg256 1)]
    show (if (0 : ℕ) = 0 then t % 256 else _) = t
    rw [if_pos rfl]
    exact Nat.mod_eq_of_lt ht
  have hdB1 : decB1 (A.buf (p + 1)) (A.buf (p + 2)) = msgByte t L data 1 := by
    rw [hpj 1 (by norm_num), hpj 2 (by norm_num)]
    show decB1 (encB1 (msgByte t L data 0) (msgByte t L data 1))
      (encB2 (msgByte t L data 1) (msgByte t L data 2)) = msgByte t L data 1
    exact rt1 (hmsg256 0) (hmsg256 1) (hmsg256 2)
  have hdB2 : decB2 (A.buf (p + 2)) (A.buf (p + 3)) = msgByte t L data 2 := by
    rw [hpj 2 (by norm_num), hpj 3 (by norm_num)]
    show decB2 (encB2 (msgByte t L data 1) (msgByte t L data 2))
      (encB3 (msgByte t L data 2) (msgByte t L data 3)) = msgByte t L data 2
    exact rt2 (hmsg256 1) (hmsg256 2) (hmsg256 3)
  have hdB3 : decB3 (A.buf (p + 3)) (A.buf (p + 4)) = msgByte t L data 3 := by
    rw [hpj 3 (by norm_num), hpj 4 (by norm_num)]
    show decB3 (encB3 (msgByte t L data 2) (msgByte t L data 3))
      (encB4 (msgByte t L data 3) (msgByte t L data 4)) = msgByte t L data 3
    exact rt3 (hmsg256 2) (hmsg256 3) (hmsg256 4)
  have hdB4 : decB4 (A.buf (p + 4)) (A.buf (p + 5)) = msgByte t L data 4 := by
    rw [hpj 4 (by norm_num), hpj 5 (by norm_num)]
    show decB4 (encB4 (msgByte t L data 3) (msgByte t L data 4))
      (encB5 (msgByte t L data 4) (msgByte t L data 5)) = msgByte t L data 4
    exact rt4 (hmsg256 3) (hmsg256 4) (hmsg256 5)
  have hd5 : decB5 (A.buf (p + 5)) (A.buf (p + 6)) = msgByte t L data 5 := by
    rw [hpj 5 (by norm_num), hpj 6 (by norm_num)]
    show decB5 (encB5 (msgByte t L data 4) (msgByte t L data 5))
      (encB6 (msgByte t L data 5) (msgByte t L data 6)) = msgByte t L data 5
    exact rt5 (hmsg256 4) (hmsg256 5) (hmsg256 6)
  have hd6 : decB6 (A.buf (p + 6)) (A.buf (p + 7)) = msgByte t L data 6 := by
    rw [hpj 6 (by norm_num), hpj 7 (by norm_num)]
    show decB6 (encB6 (msgByte t L data 5) (msgByte t L data 6))
      (encB7 (msgByte t L data 6)) = msgByte t L data 6
    exact rt6 (hmsg256 5) (hmsg256 6)
  have hmid : ∀ n, 1 ≤ n → n < 5 →
      msgByte t L data n = (((L + 5) % 2 ^ 32) >>> (8 * (n - 1))) &&& 0xff := by
    intro n h1 h2
    unfold msgByte
    rw [if_neg (show ¬(n = 0) by omega), if_pos (show n < 5 by omega)]
  have hmsize : decB4 (A.buf (p + 4)) (A.buf (p + 5)) <<< 24 |||
      decB3 (A.buf (p + 3)) (A.buf (p + 4)) <<< 16 |||
      decB2 (A.buf (p + 2)) (A.buf (p + 3)) <<< 8 |||
      decB1 (A.buf (p + 1)) (A.buf (p + 2)) = L + 5 := by
    rw [hdB4, hdB3, hdB2, hdB1]
    rw [hmid 1 (by norm_num) (by norm_num), hmid 2 (by norm_num) (by norm_num),
      hmid 3 (by norm_num) (by norm_num), hmid 4 (by norm_num) (by norm_num)]
    rw [show (8 * (1 - 1) : ℕ) = 0 by norm_num, Nat.shiftRight_zero,
      show (8 * (2 - 1) : ℕ) = 8 by norm_num,
      show (8 * (3 - 1) : ℕ) = 16 by norm_num,
      show (8 * (4 - 1) : ℕ) = 24 by norm_num]
    rw [recomposeLE ((L + 5) % 2 ^ 32) (Nat.mod_lt _ (by norm_num))]
    exact mod_id htot32
  have hmsgpay : ∀ n, n < L → msgByte t L data (n + 5) = data.getD n 0 := by
    intro n hn
    unfold msgByte
    rw [if_neg (show ¬(n + 5 = 0) by omega), if_neg (show ¬(n + 5 < 5) by omega),
      if_pos (show n + 5 < L + 5 by omega)]
    congr 1
  constructor
  · -- large enough buffer: the message is returned intact
    intro hcap
    have hmain : ∃ ar df, memipc_get_req rd A t0 cap dst0 =
        ⟨0, ar, df, decB0 (A.buf (p + 0)) (A.buf (p + 1)), L + 5 - 5⟩ ∧
        ∀ n, n < L → df n = data.getD n 0 := by
      by_cases hsingle : L + 5 ≤ 7
      · -- single-block message
        have hstep : memipc_get_req rd A t0 cap dst0 =
            ⟨0, ⟨clearMem A.buf p 8, (p + blocksFor (L + 5) * 8) % size,
                if p + 8 ≥ size then 0 else p + 8, size,
                blocksFor (L + 5) * 8 - 8, A.writer, A.reader⟩,
              fun q => if q = 0 then decB5 (A.buf (p + 5)) (A.buf (p + 6))
                else if q = 0 + 1 then decB6 (A.buf (p + 6)) (A.buf (p + 7))
                else dst0 q,
              decB0 (A.buf (p + 0)) (A.buf (p + 1)), L + 5 - 5⟩ := by
          simp only [memipc_get_req, hrd, hsz, hrp, hin, hwp]
          rw [if_neg (show ¬(rd ≠ rd) by simp)]
          rw [hW]
          simp only []
          rw [if_neg (show ¬(blocksFor (L + 5) * 8 < 8) by omega)]
          rw [hhdr]
          simp only []
          rw [if_neg (show ¬((0 : Int) ≠ 0) by simp)]
          rw [hmsize]
          rw [if_neg (show ¬(L + 5 > cap + 5) by omega)]
          rw [if_pos hsingle]
        refine ⟨_, _, hstep, ?_⟩
        intro n hn
        have hn2 : n < 2 := by omega
        interval_cases n
        · show (if (0 : ℕ) = 0 then decB5 (A.buf (p + 5)) (A.buf (p + 6))
            else _) = data.getD 0 0
          rw [if_pos rfl, hd5]
          have := hmsgpay 0 (by omega)
          simpa using this
        · show (if (1 : ℕ) = 0 then _ else if (1 : ℕ) = 0 + 1
            then decB6 (A.buf (p + 6)) (A.buf (p + 7)) else _) = data.getD 1 0
          rw [if_neg (by norm_num), if_pos (by norm_num), hd6]
          have := hmsgpay 1 (by omega)
          simpa using this
      · -- multi-block message
        have hbc2 : 2 ≤ blocksFor (L + 5) := by
          rcases Nat.lt_or_ge (blocksFor (L + 5)) 2 with h | h
          · exfalso; omega
          · exact h
        have hdst1 : ∀ q, 2 ≤ q →
            (fun q => if q = 0 then decB5 (A.buf (p + 5)) (A.buf (p + 6))
              else if q = 0 + 1 then decB6 (A.buf (p + 6)) (A.buf (p + 7))
              else dst0 q) q = dst0 q := by
          intro q hq
          simp only []
          rw [if_neg (by omega), if_neg (by omega)]
        by_cases hwrap : blocksFor (L + 5) ≤ (size - p) / 8
        · -- no wraparound on read
          have hblocks1 : ∀ i, i < blocksFor (L + 5) - 1 → ∀ j, j < 8 →
              A.buf (p + 8 + i * 8 + j) =
                encBlock (fun u => msgByte t L data (7 * (1 + i) + u)) j := by
            intro i hi j hj
            have h1 := htgt (1 + i) (by omega) j hj
            rw [mod_id (show p + ((1 + i) * 8 + j) < size by omega)] at h1
            rw [show p + 8 + i * 8 + j = p + ((1 + i) * 8 + j) by omega]
            exact h1
          obtain ⟨r1ret, r1low, r1tgt, r1dstp⟩ :=
            getReadRun_spec (L + 5) A.buf (msgByte t L data) hmsg256
              (blocksFor (L + 5) - 1) (p + 8) 1
              (fun q => if q = 0 then decB5 (A.buf (p + 5)) (A.buf (p + 6))
                else if q = 0 + 1 then decB6 (A.buf (p + 6)) (A.buf (p + 7))
                else dst0 q) (7 - 5)
              (by omega) (by omega) hblocks1
          rcases hrun1 : getReadRun (L + 5) A.buf (p + 8) 1 (blocksFor (L + 5) - 1)
              (fun q => if q = 0 then decB5 (A.buf (p + 5)) (A.buf (p + 6))
                else if q = 0 + 1 then decB6 (A.buf (p + 6)) (A.buf (p + 7))
                else dst0 q) (7 - 5) with ⟨e1, dstA, dp1⟩
          rw [hrun1] at r1ret r1low r1tgt r1dstp
          simp only at r1ret r1low r1tgt r1dstp
          have hdata : ∀ n, n < L → dstA n = data.getD n 0 := by
            intro n hn
            by_cases hn2 : n < 2
            · rw [r1low n (by omega)]
              interval_cases n
              · rw [show (if (0 : ℕ) = 0 then decB5 (A.buf (p + 5)) (A.buf (p + 6))
                  else if (0 : ℕ) = 0 + 1 then decB6 (A.buf (p + 6)) (A.buf (p + 7))
                  else dst0 0) = decB5 (A.buf (p + 5)) (A.buf (p + 6)) from
                    by rw [if_pos rfl]]
                rw [hd5]
                have := hmsgpay 0 (by omega)
                simpa using this
              · rw [show (if (1 : ℕ) = 0 then decB5 (A.buf (p + 5)) (A.buf (p + 6))
                  else if (1 : ℕ) = 0 + 1 then decB6 (A.buf (p + 6)) (A.buf (p + 7))
                  else dst0 1) = decB6 (A.buf (p + 6)) (A.buf (p + 7)) from
                    by rw [if_neg (by norm_num), if_pos (by norm_num)]]
                rw [hd6]
                have := hmsgpay 1 (by omega)
                simpa using this
            · -- payload bytes from the read loop
              have hb1 : 1 ≤ (n + 5) / 7 := by omega
              have hblt : (n + 5) / 7 < blocksFor (L + 5) := by
                have := le_seven_mul_blocksFor (L + 5)
                omega
              have htg := r1tgt ((n + 5) / 7 - 1) (by omega) ((n + 5) % 7) (by
                have hdm := Nat.div_add_mod (n + 5) 7
                have : 1 + ((n + 5) / 7 - 1) = (n + 5) / 7 := by omega
                rw [this]
                omega)
              rw [show 1 + ((n + 5) / 7 - 1) = (n + 5) / 7 by omega] at htg
              rw [show 7 - 5 + ((n + 5) / 7 - 1) * 7 + (n + 5) % 7 = n by
                have hdm := Nat.div_add_mod (n + 5) 7
                omega] at htg
              rw [show 7 * ((n + 5) / 7) + (n + 5) % 7 = n + 5 by
                have hdm := Nat.div_add_mod (n + 5) 7
                omega] at htg
              rw [htg]
              exact hmsgpay n hn
          by_cases hcurr : p + blocksFor (L + 5) * 8 ≥ size
          · have hstep : memipc_get_req rd A t0 cap dst0 =
                ⟨0, ⟨clearMem A.buf p (blocksFor (L + 5) * 8),
                    (p + blocksFor (L + 5) * 8) % size, 0, size,
                    blocksFor (L + 5) * 8 - blocksFor (L + 5) * 8,
                    A.writer, A.reader⟩,
                  dstA, decB0 (A.buf (p + 0)) (A.buf (p + 1)), L + 5 - 5⟩ := by
              simp only [memipc_get_req, hrd, hsz, hrp, hin, hwp]
              rw [if_neg (show ¬(rd ≠ rd) by simp)]
              rw [hW]
              simp only []
              rw [if_neg (show ¬(blocksFor (L + 5) * 8 < 8) by omega)]
              rw [hhdr]
              simp only []
              rw [if_neg (show ¬((0 : Int) ≠ 0) by simp)]
              rw [hmsize]
              rw [if_neg (show ¬(L + 5 > cap + 5) by omega)]
              rw [if_neg hsingle]
              rw [if_neg (show ¬(blocksFor (L + 5) * 8 < blocksFor (L + 5) * 8) by omega)]
              rw [if_pos (show blocksFor (L + 5) ≤ (size - p) / 8 from hwrap)]
              rw [if_pos (show blocksFor (L + 5) ≤ (size - p) / 8 from hwrap)]
              rw [hrun1]
              simp only []
              rw [if_neg (by simp [r1ret])]
              rw [if_pos hcurr]
              rw [if_neg (show ¬((0 : ℕ) > 0) by omega)]
            exact ⟨_, dstA, hstep, hdata⟩
          · have hstep : memipc_get_req rd A t0 cap dst0 =
                ⟨0, ⟨clearMem A.buf p (blocksFor (L + 5) * 8),
                    (p + blocksFor (L + 5) * 8) % size,
                    p + blocksFor (L + 5) * 8, size,
                    blocksFor (L + 5) * 8 - blocksFor (L + 5) * 8,
                    A.writer, A.reader⟩,
                  dstA, decB0 (A.buf (p + 0)) (A.buf (p + 1)), L + 5 - 5⟩ := by
              simp only [memipc_get_req, hrd, hsz, hrp, hin, hwp]
              rw [if_neg (show ¬(rd ≠ rd) by simp)]
              rw [hW]
              simp only []
              rw [if_neg (show ¬(blocksFor (L + 5) * 8 < 8) by omega)]
              rw [hhdr]
              simp only []
              rw [if_neg (show ¬((0 : Int) ≠ 0) by simp)]
              rw [hmsize]
              rw [if_neg (show ¬(L + 5 > cap + 5) by omega)]
              rw [if_neg hsingle]
              rw [if_neg (show ¬(blocksFor (L + 5) * 8 < blocksFor (L + 5) * 8) by omega)]
              rw [if_pos (show blocksFor (L + 5) ≤ (size - p) / 8 from hwrap)]
              rw [if_pos (show blocksFor (L + 5) ≤ (size - p) / 8 from hwrap)]
              rw [hrun1]
              simp only []
              rw [if_neg (by simp [r1ret])]
              rw [if_neg hcurr]
            exact ⟨_, dstA, hstep, hdata⟩
        · -- the read wraps around the end of the area
          have hbc1 : (size - p) / 8 * 8 = size - p := by omega
          have hblocks1 : ∀ i, i < (size - p) / 8 - 1 → ∀ j, j < 8 →
              A.buf (p + 8 + i * 8 + j) =
                encBlock (fun u => msgByte t L data (7 * (1 + i) + u)) j := by
            intro i hi j hj
            have h1 := htgt (1 + i) (by omega) j hj
            rw [mod_id (show p + ((1 + i) * 8 + j) < size by omega)] at h1
            rw [show p + 8 + i * 8 + j = p + ((1 + i) * 8 + j) by omega]
            exact h1
          obtain ⟨r1ret, r1low, r1tgt, r1dstp⟩ :=
            getReadRun_spec (L + 5) A.buf (msgByte t L data) hmsg256
              ((size - p) / 8 - 1) (p + 8) 1
              (fun q => if q = 0 then decB5 (A.buf (p + 5)) (A.buf (p + 6))
                else if q = 0 + 1 then decB6 (A.buf (p + 6)) (A.buf (p + 7))
                else dst0 q) (7 - 5)
              (by omega) (by omega) hblocks1
          rcases hrun1 : getReadRun (L + 5) A.buf (p + 8) 1 ((size - p) / 8 - 1)
              (fun q => if q = 0 then decB5 (A.buf (p + 5)) (A.buf (p + 6))
                else if q = 0 + 1 then decB6 (A.buf (p + 6)) (A.buf (p + 7))
                else dst0 q) (7 - 5) with ⟨e1, dstA, dp1⟩
          rw [hrun1] at r1ret r1low r1tgt r1dstp
          simp only at r1ret r1low r1tgt r1dstp
          have hdp1 : dp1 = 7 - 5 + ((size - p) / 8 - 1) * 7 := by
            apply r1dstp
            have h1 : (size - p) / 8 < blocksFor (L + 5) := by omega
            have := seven_mul_lt_of_lt_blocksFor h1
            omega
          have hblocks2 : ∀ i, i < blocksFor (L + 5) - (size - p) / 8 → ∀ j, j < 8 →
              A.buf (0 + i * 8 + j) =
                encBlock (fun u => msgByte t L data (7 * ((size - p) / 8 + i) + u)) j := by
            intro i hi j hj
            have h1 := htgt ((size - p) / 8 + i) (by omega) j hj
            rw [mod_shift (by omega) (by omega)] at h1
            rw [show p + (((size - p) / 8 + i) * 8 + j) - size = 0 + i * 8 + j by omega] at h1
            exact h1
          obtain ⟨r2ret, r2low, r2tgt, r2dstp⟩ :=
            getReadRun_spec (L + 5) A.buf (msgByte t L data) hmsg256
              (blocksFor (L + 5) - (size - p) / 8) 0 ((size - p) / 8)
              dstA dp1 (by omega) (by omega) hblocks2
          rcases hrun2 : getReadRun (L + 5) A.buf 0 ((size - p) / 8)
              (blocksFor (L + 5) - (size - p) / 8) dstA dp1 with ⟨e2, dstB, dp2⟩
          rw [hrun2] at r2ret r2low r2tgt r2dstp
          simp only at r2ret r2low r2tgt r2dstp
          have hdata : ∀ n, n < L → dstB n = data.getD n 0 := by
            intro n hn
            by_cases hn2 : n < 2
            · rw [r2low n (by omega), r1low n (by omega)]
              interval_cases n
              · rw [show (if (0 : ℕ) = 0 then decB5 (A.buf (p + 5)) (A.buf (p + 6))
                  else if (0 : ℕ) = 0 + 1 then decB6 (A.buf (p + 6)) (A.buf (p + 7))
                  else dst0 0) = decB5 (A.buf (p + 5)) (A.buf (p + 6)) from
                    by rw [if_pos rfl]]
                rw [hd5]
                have := hmsgpay 0 (by omega)
                simpa using this
              · rw [show (if (1 : ℕ) = 0 then decB5 (A.buf (p + 5)) (A.buf (p + 6))
                  else if (1 : ℕ) = 0 + 1 then decB6 (A.buf (p + 6)) (A.buf (p + 7))
                  else dst0 1) = decB6 (A.buf (p + 6)) (A.buf (p + 7)) from
                    by rw [if_neg (by norm_num), if_pos (by norm_num)]]
                rw [hd6]
                have := hmsgpay 1 (by omega)
                simpa using this
            · have hdm := Nat.div_add_mod (n + 5) 7
              have hb1 : 1 ≤ (n + 5) / 7 := by omega
              have hblt : (n + 5) / 7 < blocksFor (L + 5) := by
                have := le_seven_mul_blocksFor (L + 5)
                omega
              by_cases hrun1blk : (n + 5) / 7 < (size - p) / 8
              · -- written by the unwrapped loop
                have htg := r1tgt ((n + 5) / 7 - 1) (by omega) ((n + 5) % 7) (by
                  rw [show 1 + ((n + 5) / 7 - 1) = (n + 5) / 7 by omega]
                  omega)
                rw [show 1 + ((n + 5) / 7 - 1) = (n + 5) / 7 by omega] at htg
                rw [show 7 - 5 + ((n + 5) / 7 - 1) * 7 + (n + 5) % 7 = n by omega] at htg
                rw [show 7 * ((n + 5) / 7) + (n + 5) % 7 = n + 5 by omega] at htg
                rw [r2low n (by
                  rw [hdp1]
                  omega)]
                rw [htg]
                exact hmsgpay n hn
              · -- written by the wrapped loop
                have htg := r2tgt ((n + 5) / 7 - (size - p) / 8) (by omega)
                  ((n + 5) % 7) (by
                  rw [show (size - p) / 8 + ((n + 5) / 7 - (size - p) / 8) =
                    (n + 5) / 7 by omega]
                  omega)
                rw [show (size - p) / 8 + ((n + 5) / 7 - (size - p) / 8) =
                  (n + 5) / 7 by omega] at htg
                rw [hdp1] at htg
                rw [show 7 - 5 + ((size - p) / 8 - 1) * 7 +
                  ((n + 5) / 7 - (size - p) / 8) * 7 + (n + 5) % 7 = n by omega] at htg
                rw [show 7 * ((n + 5) / 7) + (n + 5) % 7 = n + 5 by omega] at htg
                rw [htg]
                exact hmsgpay n hn
          have hstep : memipc_get_req rd A t0 cap dst0 =
              ⟨0, ⟨clearMem (clearMem A.buf 0
                      ((blocksFor (L + 5) - (size - p) / 8) * 8)) p
                    ((size - p) / 8 * 8),
                  (p + blocksFor (L + 5) * 8) % size,
                  (blocksFor (L + 5) - (size - p) / 8) * 8, size,
                  blocksFor (L + 5) * 8 - blocksFor (L + 5) * 8,
                  A.writer, A.reader⟩,
                dstB, decB0 (A.buf (p + 0)) (A.buf (p + 1)), L + 5 - 5⟩ := by
            simp only [memipc_get_req, hrd, hsz, hrp, hin, hwp]
            rw [if_neg (show ¬(rd ≠ rd) by simp)]
            rw [hW]
            simp only []
            rw [if_neg (show ¬(blocksFor (L + 5) * 8 < 8) by omega)]
            rw [hhdr]
            simp only []
            rw [if_neg (show ¬((0 : Int) ≠ 0) by simp)]
            rw [hmsize]
            rw [if_neg (show ¬(L + 5 > cap + 5) by omega)]
            rw [if_neg hsingle]
            rw [if_neg (show ¬(blocksFor (L + 5) * 8 < blocksFor (L + 5) * 8) by omega)]
            rw [if_neg (show ¬(blocksFor (L + 5) ≤ (size - p) / 8) from hwrap)]
            rw [if_neg (show ¬(blocksFor (L + 5) ≤ (size - p) / 8) from hwrap)]
            rw [hrun1]
            simp only []
            rw [if_neg (by simp [r1ret])]
            rw [if_pos (show p + (size - p) / 8 * 8 ≥ size by omega)]
            rw [if_pos (show blocksFor (L + 5) - (size - p) / 8 > 0 by omega)]
            rw [hrun2]
            simp only []
            rw [if_neg (by simp [r2ret])]
          exact ⟨_, dstB, hstep, hdata⟩
    obtain ⟨ar, df, hres, hdf⟩ := hmain
    rw [hres]
    exact ⟨rfl, ht_out, by show L + 5 - 5 = L; omega, fun n hn => hdf n hn⟩
  · -- buffer too small: TooLarge, nothing consumed
    intro hcap
    have hres : memipc_get_req rd A t0 cap dst0 =
        ⟨-2, ⟨A.buf, (p + blocksFor (L + 5) * 8) % size, p, size,
          blocksFor (L + 5) * 8, A.writer, A.reader⟩,
          fun q => if q = 0 then decB5 (A.buf (p + 5)) (A.buf (p + 6))
            else if q = 0 + 1 then decB6 (A.buf (p + 6)) (A.buf (p + 7))
            else dst0 q, t0, cap⟩ := by
      simp only [memipc_get_req, hrd, hsz, hrp, hin, hwp]
      rw [if_neg (show ¬(rd ≠ rd) by simp)]
      rw [hW]
      simp only []
      rw [if_neg (show ¬(blocksFor (L + 5) * 8 < 8) by omega)]
      rw [hhdr]
      simp only []
      rw [if_neg (show ¬((0 : Int) ≠ 0) by simp)]
      rw [hmsize]
      rw [if_pos (show L + 5 > cap + 5 by omega)]
    rw [hres]
    exact ⟨rfl, rfl, rfl, rfl, rfl, rfl, hrd, rfl, rfl⟩

/-! ## Claim C1: ring round-trip -/

/-- If the needed block count exceeds the capacity of the (drained) area,
`memipc_add_req` refuses with `-1`. -/
theorem add_drained_full (w r size p t L : Nat) (data : List Nat)
    (h8 : 8 ∣ size) (hp8 : 8 ∣ p) (hps : p < size)
    (hbig : size / 8 < blocksFor (L + 5)) :
    (memipc_add_req w (drainedArea size p w r) t L data).ret = -1 := by
  obtain ⟨a8, ha⟩ := h8
  obtain ⟨b8, hb⟩ := hp8
  have hsync : writerSync (fun _ => 0) size p 0 = (p, 0) := rfl
  simp only [memipc_add_req, drainedArea]
  rw [if_neg (show ¬(w ≠ w) by simp)]
  rw [hsync]
  simp only []
  rw [if_neg (show ¬((0 : ℕ) = size) by omega)]
  rw [if_neg (show ¬(p < p) by omega)]
  rw [if_neg (show ¬(p < p) by omega)]
  rw [if_pos (show blocksFor (L + 5) > (size - p) / 8 + p / 8 by omega)]

/-- The consumer's descriptor for the same shared buffer after the
producer's enqueue into a drained ring: the buffer is shared, while the
cached `wptr`/`rptr`/`inbuffer` are the consumer's own (still at the
drained position `p`; `memipc_get_req`'s catch-up loop will advance
them). -/
def postAddReaderArea (w r size p t L : Nat) (data : List Nat) : MemipcArea :=
  ⟨(memipc_add_req w (drainedArea size p w r) t L data).area.buf,
    p, p, size, 0, w, r⟩

/-- C1: ring round-trip.  For every message kind `t` and payload `data`
that `memipc_add_req` accepts (returns 0) when enqueued into a ring
drained by the consumer, a single successful `memipc_get_req` on the
consumer side with a sufficiently large output buffer (`L ≤ cap`) returns
that message with the identical kind, the same payload length, and a
byte-for-byte identical payload. -/
theorem c1_ring_roundtrip (w r size p t L cap t0 : Nat) (data : List Nat)
    (dst0 : Buf)
    (hlen : data.length = L) (hbytes : ∀ b ∈ data, b < 256) (ht : t < 256)
    (h8 : 8 ∣ size) (hp8 : 8 ∣ p) (hps : p < size) (hsz32 : size < 2 ^ 32)
    (hcap : L ≤ cap)
    (hadd : (memipc_add_req w (drainedArea size p w r) t L data).ret = 0) :
    (memipc_get_req r (postAddReaderArea w r size p t L data) t0 cap dst0).ret
        = 0 ∧
    (memipc_get_req r (postAddReaderArea w r size p t L data) t0 cap dst0).rtype
        = t ∧
    (memipc_get_req r (postAddReaderArea w r size p t L data) t0 cap dst0).rsize
        = L ∧
    ∀ n, n < L →
      (memipc_get_req r (postAddReaderArea w r size p t L data) t0 cap dst0).data
          n = data.getD n 0 := by
  have hbc : blocksFor (L + 5) ≤ size / 8 := by
    rcases Nat.lt_or_ge (size / 8) (blocksFor (L + 5)) with h | h
    · have hm1 := add_drained_full w r size p t L data h8 hp8 hps h
      rw [hm1] at hadd
      exact absurd hadd (by decide)
    · exact h
  obtain ⟨_, hrp, hwp, hin, hsz, hwr, hrd, htgt, hz⟩ :=
    memipc_add_req_drained_spec w r size p t L data hlen h8 hp8 hps hbc
  exact (memipc_get_req_msg_spec r size p t L 0 cap t0 data
    (postAddReaderArea w r size p t L data) dst0 hlen hbytes ht h8 hp8 hps
    hsz32 hbc rfl rfl rfl rfl
    (show p = (p + 0) % size by rw [Nat.add_zero, mod_id hps])
    (by omega) htgt hz).1 hcap

/-- Witness for C1 on a concrete wrapping enqueue: a 16-byte ring with the
write position at offset 8, kind 42, payload `[9, 17, 255]` (two blocks,
one of which wraps to offset 0). -/
theorem c1_ring_roundtrip_witness :
    (memipc_get_req 2 (postAddReaderArea 1 2 16 8 42 3 [9, 17, 255]) 0 3
        (fun _ => 0)).ret = 0 ∧
    (memipc_get_req 2 (postAddReaderArea 1 2 16 8 42 3 [9, 17, 255]) 0 3
        (fun _ => 0)).rtype = 42 ∧
    (memipc_get_req 2 (postAddReaderArea 1 2 16 8 42 3 [9, 17, 255]) 0 3
        (fun _ => 0)).rsize = 3 ∧
    ∀ n, n < 3 →
      (memipc_get_req 2 (postAddReaderArea 1 2 16 8 42 3 [9, 17, 255]) 0 3
          (fun _ => 0)).data n = [9, 17, 255].getD n 0 :=
  c1_ring_roundtrip 1 2 16 8 42 3 3 0 [9, 17, 255] (fun _ => 0)
    rfl (by decide) (by decide) (by decide) (by decide) (by decide)
    (by norm_num) (by decide) (by decide)

/-! ## Claim C4: WouldBlock on a full ring, no state change -/

/-- C4: `memipc_add_req` computes the needed block count as
`ceil((5 + L) / 7)` and fails with `-1` (WouldBlock) whenever fewer free
blocks are available between the write pointer and the freshly-synced
read pointer, counting both the contiguous and the wrapped-around region
(`blocksAvailable`); on that failure the ring buffer contents and the
ring state are unchanged (only the writer's private cached read state is
caught up, and no block is written). -/
theorem c4_would_block (w : Nat) (area : MemipcArea) (t L : Nat)
    (data : List Nat) (hw : area.writer = w)
    (hfull : blocksAvailable area < blocksFor (L + 5)) :
    blocksFor (L + 5) = (5 + L + 6) / 7 ∧
    memipc_add_req w area t L data =
      ⟨-1, { area with
             rptr := (addSync area).1
             inbuffer := (addSync area).2 }, []⟩ := by
  constructor
  · rw [blocksFor_eq_ceil]
    congr 1
    omega
  · simp only [memipc_add_req, hw]
    rw [if_neg (show ¬(w ≠ w) by simp)]
    simp only [blocksAvailable, addSync] at hfull ⊢
    by_cases hfl : (writerSync area.buf area.size area.rptr area.inbuffer).2 =
        area.size
    · rw [if_pos hfl]
    · rw [if_neg hfl]
      rw [if_pos (show blocksFor (L + 5) >
          (if area.wptr < (writerSync area.buf area.size area.rptr
              area.inbuffer).1 then
            ((writerSync area.buf area.size area.rptr area.inbuffer).1 -
              area.wptr) / 8
          else (area.size - area.wptr) / 8) +
          (if area.wptr < (writerSync area.buf area.size area.rptr
              area.inbuffer).1 then 0
          else (writerSync area.buf area.size area.rptr area.inbuffer).1 / 8)
        from hfull)]

/-- Witness for C4: an 8-byte drained ring (one block of capacity) cannot
accept a 3-byte payload (two blocks needed); the call returns `-1` and
leaves the area unchanged. -/
theorem c4_would_block_witness :
    blocksFor (3 + 5) = (5 + 3 + 6) / 7 ∧
    memipc_add_req 1 (drainedArea 8 0 1 2) 42 3 [9, 17, 255] =
      ⟨-1, { drainedArea 8 0 1 2 with
             rptr := (addSync (drainedArea 8 0 1 2)).1
             inbuffer := (addSync (drainedArea 8 0 1 2)).2 }, []⟩ :=
  c4_would_block 1 (drainedArea 8 0 1 2) 42 3 [9, 17, 255] rfl (by decide)

/-! ## Claim C5: TooLarge rejection is exact and consumes nothing -/

/-- C5: with a single message of payload length `L` pending (as left by a
successful `memipc_add_req` into a drained ring), `memipc_get_req`
returns the TooLarge result `-2` exactly when the payload size exceeds
the caller's buffer capacity `cap` (i.e. the total size exceeds
`cap + 5`); on that rejection the message is not consumed: no presence
bit is cleared (the shared buffer is unchanged) and the read pointer is
not advanced, and a later call on the resulting descriptor with a large
enough buffer still returns the message intact. -/
theorem c5_toolarge_not_consuming (w r size p t L cap cap2 t0 t1 : Nat)
    (data : List Nat) (dst0 dst1 : Buf)
    (hlen : data.length = L) (hbytes : ∀ b ∈ data, b < 256) (ht : t < 256)
    (h8 : 8 ∣ size) (hp8 : 8 ∣ p) (hps : p < size) (hsz32 : size < 2 ^ 32)
    (hadd : (memipc_add_req w (drainedArea size p w r) t L data).ret = 0) :
    ((memipc_get_req r (postAddReaderArea w r size p t L data) t0 cap dst0).ret
        = -2 ↔ cap < L) ∧
    (cap < L →
      (memipc_get_req r (postAddReaderArea w r size p t L data) t0 cap
          dst0).area.buf = (postAddReaderArea w r size p t L data).buf ∧
      (memipc_get_req r (postAddReaderArea w r size p t L data) t0 cap
          dst0).area.rptr = p ∧
      (L ≤ cap2 →
        (memipc_get_req r
            (memipc_get_req r (postAddReaderArea w r size p t L data) t0 cap
              dst0).area t1 cap2 dst1).ret = 0 ∧
        (memipc_get_req r
            (memipc_get_req r (postAddReaderArea w r size p t L data) t0 cap
              dst0).area t1 cap2 dst1).rtype = t ∧
        (memipc_get_req r
            (memipc_get_req r (postAddReaderArea w r size p t L data) t0 cap
              dst0).area t1 cap2 dst1).rsize = L ∧
        ∀ n, n < L →
          (memipc_get_req r
              (memipc_get_req r (postAddReaderArea w r size p t L data) t0 cap
                dst0).area t1 cap2 dst1).data n = data.getD n 0)) := by
  have hbc : blocksFor (L + 5) ≤ size / 8 := by
    rcases Nat.lt_or_ge (size / 8) (blocksFor (L + 5)) with h | h
    · have hm1 := add_drained_full w r size p t L data h8 hp8 hps h
      rw [hm1] at hadd
      exact absurd hadd (by decide)
    · exact h
  obtain ⟨_, hrp, hwp, hin, hsz, hwr, hrd, htgt, hz⟩ :=
    memipc_add_req_drained_spec w r size p t L data hlen h8 hp8 hps hbc
  have hmaster := memipc_get_req_msg_spec r size p t L 0 cap t0 data
    (postAddReaderArea w r size p t L data) dst0 hlen hbytes ht h8 hp8 hps
    hsz32 hbc rfl rfl rfl rfl
    (show p = (p + 0) % size by rw [Nat.add_zero, mod_id hps])
    (by omega) htgt hz
  constructor
  · constructor
    · intro hm2
      rcases Nat.lt_or_ge cap L with h | h
      · exact h
      · exfalso
        rw [(hmaster.1 h).1] at hm2
        exact absurd hm2 (by decide)
    · intro h
      exact (hmaster.2 h).1
  · intro h
    obtain ⟨hret, hbuf, hrp2, hwp2, hin2, hsz2, hrd2, _, _⟩ := hmaster.2 h
    refine ⟨hbuf, hrp2, ?_⟩
    intro hcap2
    have hmaster2 := memipc_get_req_msg_spec r size p t L
      (blocksFor (L + 5) * 8) cap2 t1 data
      (memipc_get_req r (postAddReaderArea w r size p t L data) t0 cap
        dst0).area dst1 hlen hbytes ht h8 hp8 hps hsz32 hbc
      hrd2 hsz2 hrp2 hin2 (by rw [hwp2]) (by omega)
      (by
        intro m hm j hj
        rw [hbuf]
        exact htgt m hm j hj)
      (by
        intro q hq hrel
        rw [hbuf]
        exact hz q hq hrel)
    obtain ⟨hr0, hrt, hrs, hdata⟩ := hmaster2.1 hcap2
    exact ⟨hr0, hrt, hrs, hdata⟩

/-- Witness for C5 on a concrete ring: the two-block message of kind 42
with payload `[9, 17, 255]` is rejected with `-2` by a zero-capacity
`get`, nothing is consumed, and a second `get` with capacity 3 returns
it. -/
theorem c5_toolarge_not_consuming_witness :
    ((memipc_get_req 2 (postAddReaderArea 1 2 16 8 42 3 [9, 17, 255]) 0 0
        (fun _ => 0)).ret = -2 ↔ (0 : ℕ) < 3) ∧
    ((0 : ℕ) < 3 →
      (memipc_get_req 2 (postAddReaderArea 1 2 16 8 42 3 [9, 17, 255]) 0 0
          (fun _ => 0)).area.buf =
        (postAddReaderArea 1 2 16 8 42 3 [9, 17, 255]).buf ∧
      (memipc_get_req 2 (postAddReaderArea 1 2 16 8 42 3 [9, 17, 255]) 0 0
          (fun _ => 0)).area.rptr = 8 ∧
      ((3 : ℕ) ≤ 3 →
        (memipc_get_req 2
            (memipc_get_req 2 (postAddReaderArea 1 2 16 8 42 3 [9, 17, 255]) 0
              0 (fun _ => 0)).area 0 3 (fun _ => 0)).ret = 0 ∧
        (memipc_get_req 2
            (memipc_get_req 2 (postAddReaderArea 1 2 16 8 42 3 [9, 17, 255]) 0
              0 (fun _ => 0)).area 0 3 (fun _ => 0)).rtype = 42 ∧
        (memipc_get_req 2
            (memipc_get_req 2 (postAddReaderArea 1 2 16 8 42 3 [9, 17, 255]) 0
              0 (fun _ => 0)).area 0 3 (fun _ => 0)).rsize = 3 ∧
        ∀ n, n < 3 →
          (memipc_get_req 2
              (memipc_get_req 2 (postAddReaderArea 1 2 16 8 42 3 [9, 17, 255])
                0 0 (fun _ => 0)).area 0 3 (fun _ => 0)).data n =
            [9, 17, 255].getD n 0)) :=
  c5_toolarge_not_consuming 1 2 16 8 42 3 0 3 0 0 [9, 17, 255]
    (fun _ => 0) (fun _ => 0) rfl (by decide) (by decide) (by decide)
    (by decide) (by decide) (by norm_num) (by decide)

/-! ## Claim C6: order of the block writes in `memipc_add_req` -/

/-- The chronological write trace of a successful enqueue into a drained
ring: first the wrapped tail (if any), then the run at the write pointer,
each run writing its blocks from the highest index down to block 0.  The
boolean marks the header block. -/
theorem memipc_add_req_drained_writes (w r size p t L : Nat) (data : List Nat)
    (hlen : data.length = L)
    (h8 : 8 ∣ size) (hp8 : 8 ∣ p) (hps : p < size)
    (hbc : blocksFor (L + 5) ≤ size / 8) :
    (memipc_add_req w (drainedArea size p w r) t L data).writes =
      (if blocksFor (L + 5) > (size - p) / 8 then
        (List.range (blocksFor (L + 5) - (size - p) / 8)).reverse.map
          (fun m => (0 + m * 8, decide ((size - p) / 8 = 0 ∧ m = 0)))
      else []) ++
      (List.range (min (blocksFor (L + 5)) ((size - p) / 8))).reverse.map
        (fun m => (p + m * 8, decide ((0 : Nat) = 0 ∧ m = 0))) := by
  obtain ⟨a8, ha⟩ := h8
  obtain ⟨b8, hb⟩ := hp8
  have hsz : 0 < size := by omega
  have htot : L + 5 ≤ 7 * blocksFor (L + 5) := le_seven_mul_blocksFor (L + 5)
  have hbc8 : blocksFor (L + 5) * 8 ≤ size := by omega
  have hsync : writerSync (fun _ => 0) size p 0 = (p, 0) := rfl
  by_cases hwrap : blocksFor (L + 5) > (size - p) / 8
  · have hav1 : (size - p) / 8 * 8 = size - p := by omega
    obtain ⟨r1ret, r1out, r1tgt, r1tr⟩ :=
      addWriteRun_spec t L data hlen 0 ((size - p) / 8)
        (blocksFor (L + 5) - (size - p) / 8) (fun _ => 0)
        (by omega) (fun m hm j hj => rfl)
    rcases hrec1 : addWriteRun t L data 0 ((size - p) / 8)
        (blocksFor (L + 5) - (size - p) / 8) (fun _ => 0) with ⟨e1, buf1, tr1⟩
    rw [hrec1] at r1ret r1out r1tgt r1tr
    simp only at r1ret r1out r1tgt r1tr
    have hpres1 : ∀ m, m < (size - p) / 8 → ∀ j, j < 8 →
        buf1 (p + m * 8 + j) % 2 = 0 := by
      intro m hm j hj
      rw [r1out (p + m * 8 + j) (Or.inr (by omega))]
    obtain ⟨r2ret, r2out, r2tgt, r2tr⟩ :=
      addWriteRun_spec t L data hlen p 0 ((size - p) / 8) buf1
        (by omega) (fun m hm j hj => hpres1 m hm j hj)
    rcases hrec2 : addWriteRun t L data p 0 ((size - p) / 8) buf1
      with ⟨e2, buf2, tr2⟩
    rw [hrec2] at r2ret r2out r2tgt r2tr
    simp only at r2ret r2out r2tgt r2tr
    have hgoal : memipc_add_req w (drainedArea size p w r) t L data =
        ⟨0, ⟨buf2, (blocksFor (L + 5) - (size - p) / 8) * 8, p, size,
          0 + blocksFor (L + 5) * 8, w, r⟩, tr1 ++ tr2⟩ := by
      simp only [memipc_add_req, drainedArea, hsync]
      simp only [lt_self_iff_false, if_false]
      rw [if_neg (by simp)]
      rw [if_neg (show ¬((0 : ℕ) = size) by omega)]
      rw [if_neg (show ¬(blocksFor (L + 5) > (size - p) / 8 + p / 8) by omega)]
      rw [if_pos (show blocksFor (L + 5) > (size - p) / 8 from hwrap)]
      rw [hrec1]
      rw [if_neg (by simp [r1ret])]
      rw [hrec2]
      rw [if_neg (by simp [r2ret])]
    rw [hgoal]
    show tr1 ++ tr2 = _
    rw [r1tr, r2tr, if_pos hwrap,
      show min (blocksFor (L + 5)) ((size - p) / 8) = (size - p) / 8 by omega]
    simp
  · obtain ⟨r1ret, r1out, r1tgt, r1tr⟩ :=
      addWriteRun_spec t L data hlen p 0 (blocksFor (L + 5)) (fun _ => 0)
        (by omega) (fun m hm j hj => rfl)
    rcases hrec1 : addWriteRun t L data p 0 (blocksFor (L + 5)) (fun _ => 0)
      with ⟨e1, buf1, tr1⟩
    rw [hrec1] at r1ret r1out r1tgt r1tr
    simp only at r1ret r1out r1tgt r1tr
    have hgoal : memipc_add_req w (drainedArea size p w r) t L data =
        ⟨0, ⟨buf1,
          (if p + blocksFor (L + 5) * 8 ≥ size then 0
            else p + blocksFor (L + 5) * 8),
          p, size, 0 + blocksFor (L + 5) * 8, w, r⟩, tr1⟩ := by
      simp only [memipc_add_req, drainedArea, hsync]
      simp only [lt_self_iff_false, if_false]
      rw [if_neg (by simp)]
      rw [if_neg (show ¬((0 : ℕ) = size) by omega)]
      rw [if_neg (show ¬(blocksFor (L + 5) > (size - p) / 8 + p / 8) by omega)]
      rw [if_neg (show ¬(blocksFor (L + 5) > (size - p) / 8) from hwrap)]
      rw [hrec1]
      rw [if_neg (by simp [r1ret])]
    rw [hgoal]
    show tr1 = _
    rw [r1tr, if_neg hwrap, List.nil_append,
      show min (blocksFor (L + 5)) ((size - p) / 8) = blocksFor (L + 5) by omega]
    simp

/-- Peeling the final (lowest-index) write off a downward block run. -/
theorem revRangeMap_split {α : Type} (f : Nat → α) (n : Nat) (h : 1 ≤ n) :
    (List.range n).reverse.map f =
      ((List.range (n - 1)).map (fun m => f (m + 1))).reverse ++ [f 0] := by
  obtain ⟨n', rfl⟩ : ∃ n', n = n' + 1 := ⟨n - 1, by omega⟩
  rw [List.map_reverse, List.range_succ_eq_map, List.map_cons, List.map_map,
    List.reverse_cons]
  simp only [Nat.add_sub_cancel]
  rfl

/-- C6 counterexample: on a successful two-block enqueue into a drained
16-byte ring, `memipc_add_req` writes the payload block (at offset 8)
first and the header block (at offset 0, marked `true`) second — the
header block is not written first. -/
theorem c6_counterexample :
    (memipc_add_req 1 (drainedArea 16 0 1 2) 42 3 [9, 17, 255]).ret = 0 ∧
    (memipc_add_req 1 (drainedArea 16 0 1 2) 42 3 [9, 17, 255]).writes =
      [(8, false), (0, true)] ∧
    ¬((memipc_add_req 1 (drainedArea 16 0 1 2) 42 3
        [9, 17, 255]).writes.head? = some (0, true)) := by
  refine ⟨by decide, by decide, by decide⟩

/-- C6 (amended): for every successful enqueue into a drained ring,
`memipc_add_req` writes the header block (into offset `p`, the write
position) LAST, after all the payload blocks: the write trace is some
prefix of payload-block writes followed by the single header write. -/
theorem c6_header_written_last (w r size p t L : Nat) (data : List Nat)
    (hlen : data.length = L)
    (h8 : 8 ∣ size) (hp8 : 8 ∣ p) (hps : p < size)
    (hadd : (memipc_add_req w (drainedArea size p w r) t L data).ret = 0) :
    ∃ pre, (memipc_add_req w (drainedArea size p w r) t L data).writes =
        pre ++ [(p, true)] ∧ ∀ e ∈ pre, e.2 = false := by
  have hbc : blocksFor (L + 5) ≤ size / 8 := by
    rcases Nat.lt_or_ge (size / 8) (blocksFor (L + 5)) with h | h
    · have hm1 := add_drained_full w r size p t L data h8 hp8 hps h
      rw [hm1] at hadd
      exact absurd hadd (by decide)
    · exact h
  obtain ⟨a8, ha⟩ := h8
  obtain ⟨b8, hb⟩ := hp8
  have hsz : 0 < size := by omega
  have hbcpos : 0 < blocksFor (L + 5) := blocksFor_pos (by omega)
  have htot : L + 5 ≤ 7 * blocksFor (L + 5) := le_seven_mul_blocksFor (L + 5)
  have hbc8 : blocksFor (L + 5) * 8 ≤ size := by omega
  have hwr := memipc_add_req_drained_writes w r size p t L data hlen
    ⟨a8, ha⟩ ⟨b8, hb⟩ hps hbc
  have hmin1 : 1 ≤ min (blocksFor (L + 5)) ((size - p) / 8) := by omega
  rw [revRangeMap_split _ _ hmin1] at hwr
  rw [show ((p + 0 * 8, decide ((0 : Nat) = 0 ∧ 0 = 0)) : Nat × Bool) =
    (p, true) from rfl] at hwr
  refine ⟨(if blocksFor (L + 5) > (size - p) / 8 then
      (List.range (blocksFor (L + 5) - (size - p) / 8)).reverse.map
        (fun m => (0 + m * 8, decide ((size - p) / 8 = 0 ∧ m = 0)))
    else []) ++
    ((List.range (min (blocksFor (L + 5)) ((size - p) / 8) - 1)).map
      (fun m => (p + (m + 1) * 8,
        decide ((0 : Nat) = 0 ∧ m + 1 = 0)))).reverse, ?_, ?_⟩
  · rw [hwr, List.append_assoc]
  · intro e he
    rcases List.mem_append.1 he with h1 | h2
    · by_cases hwrap : blocksFor (L + 5) > (size - p) / 8
      · rw [if_pos hwrap] at h1
        obtain ⟨m, hm, hme⟩ := List.mem_map.1 h1
        rw [List.mem_reverse, List.mem_range] at hm
        rw [← hme]
        simp only []
        rw [decide_eq_false_iff_not]
        rintro ⟨hz0, -⟩
        omega
      · rw [if_neg hwrap] at h1
        exact absurd h1 (List.not_mem_nil e)
    · rw [List.mem_reverse] at h2
      obtain ⟨m, hm, hme⟩ := List.mem_map.1 h2
      rw [← hme]
      simp only []
      rw [decide_eq_false_iff_not]
      rintro ⟨-, hm1⟩
      omega

/-- Witness for the amended C6 on the concrete two-block enqueue of the
counterexample: the trace is a list of non-header writes followed by the
header write at offset 0. -/
theorem c6_header_written_last_witness :
    ∃ pre, (memipc_add_req 1 (drainedArea 16 0 1 2) 42 3
        [9, 17, 255]).writes = pre ++ [(0, true)] ∧ ∀ e ∈ pre, e.2 = false :=
  c6_header_written_last 1 2 16 0 42 3 [9, 17, 255] rfl (by decide) (by decide)
    (by decide) (by decide)

/-! ## The manager state machine: `memipc_isolation_process_ready_launch` -/

def MEMIPC_REQ_START_LAUNCH : Nat := 3
def MEMIPC_REQ_START_CONFIRMED : Nat := 6
def MEMIPC_REQ_TERMINATE : Nat := 7
def MEMIPC_REQ_EXIT_ISOLATION : Nat := 8

def MEMIPC_STATE_READY : Nat := 2
def MEMIPC_STATE_LAUNCHING : Nat := 3
def MEMIPC_STATE_LAUNCHED : Nat := 4
def MEMIPC_STATE_RUNNING : Nat := 5
def MEMIPC_STATE_TMP_EXITING_ISOLATION : Nat := 6
def MEMIPC_STATE_EXITING_ISOLATION : Nat := 7
def MEMIPC_STATE_LOST_ISOLATION : Nat := 8

def _global_isolated_threads_start_timeout : Int := 20
def _global_isolated_threads_restart_delay : Int := 3

/-- The fields of `struct memipc_thread_params` used by the manager's
ready-launch pass: the designated CPU, the manager-side state machine
state, the pending exit request flag, the recorded isolation-exit time
(`tv_sec`), and the manager-to-worker ring. -/
structure ThreadP where
  cpu : Nat
  state : Nat
  exit_request : Nat
  isol_exit_time : Int
  m_memipc_mosi : MemipcArea

/-- The per-thread body of the launch loop of
`memipc_isolation_process_ready_launch`: send a pending exit request,
then act on the thread's state.  `timers` is the `timers_cpuset` computed
by the timer scan, `running` the global running-isolation cpuset, and
`tssec` the current `CLOCK_MONOTONIC` seconds.  Returns the updated
thread record and the chronological list of requests handed to
`memipc_add_req` on the thread's ring. -/
def processReadyLaunchThread (mgr : Nat) (timers running : Finset Nat)
    (now tssec : Int) (th : ThreadP) : ThreadP × List Nat :=
  let er :=
    if th.exit_request ≠ 0 then
      if (memipc_add_req mgr th.m_memipc_mosi MEMIPC_REQ_TERMINATE 0 []).ret
          = 0 then
        ({ th with
           m_memipc_mosi :=
             (memipc_add_req mgr th.m_memipc_mosi MEMIPC_REQ_TERMINATE 0
               []).area
           exit_request := 0 }, [MEMIPC_REQ_TERMINATE])
      else (th, [MEMIPC_REQ_TERMINATE])
    else (th, [])
  let th1 := er.1
  if th1.state = MEMIPC_STATE_TMP_EXITING_ISOLATION then
    if tssec - th1.isol_exit_time > _global_isolated_threads_restart_delay then
      if (memipc_add_req mgr th1.m_memipc_mosi MEMIPC_REQ_START_LAUNCH 0
          []).ret = 0 then
        ({ th1 with
           m_memipc_mosi :=
             (memipc_add_req mgr th1.m_memipc_mosi MEMIPC_REQ_START_LAUNCH 0
               []).area
           state := MEMIPC_STATE_LAUNCHING }, er.2 ++ [MEMIPC_REQ_START_LAUNCH])
      else (th1, er.2 ++ [MEMIPC_REQ_START_LAUNCH])
    else (th1, er.2)
  else if th1.state = MEMIPC_STATE_READY ∨
      th1.state = MEMIPC_STATE_LOST_ISOLATION then
    if (memipc_add_req mgr th1.m_memipc_mosi MEMIPC_REQ_START_LAUNCH 0
        []).ret = 0 then
      ({ th1 with
         m_memipc_mosi :=
           (memipc_add_req mgr th1.m_memipc_mosi MEMIPC_REQ_START_LAUNCH 0
             []).area
         state := MEMIPC_STATE_LAUNCHING }, er.2 ++ [MEMIPC_REQ_START_LAUNCH])
    else (th1, er.2 ++ [MEMIPC_REQ_START_LAUNCH])
  else if th1.state = MEMIPC_STATE_LAUNCHED then
    if (timers ∩ running).card = 0 then
      if (memipc_add_req mgr th1.m_memipc_mosi MEMIPC_REQ_START_CONFIRMED 0
          []).ret = 0 then
        ({ th1 with
           m_memipc_mosi :=
             (memipc_add_req mgr th1.m_memipc_mosi MEMIPC_REQ_START_CONFIRMED
               0 []).area
           state := MEMIPC_STATE_RUNNING },
          er.2 ++ [MEMIPC_REQ_START_CONFIRMED])
      else (th1, er.2 ++ [MEMIPC_REQ_START_CONFIRMED])
    else
      if th1.cpu ∈ timers then
        if (memipc_add_req mgr th1.m_memipc_mosi MEMIPC_REQ_EXIT_ISOLATION 0
            []).ret = 0 then
          ({ th1 with
             m_memipc_mosi :=
               (memipc_add_req mgr th1.m_memipc_mosi MEMIPC_REQ_EXIT_ISOLATION
                 0 []).area
             state := MEMIPC_STATE_TMP_EXITING_ISOLATION
             isol_exit_time := tssec }, er.2 ++ [MEMIPC_REQ_EXIT_ISOLATION])
        else (th1, er.2 ++ [MEMIPC_REQ_EXIT_ISOLATION])
      else (th1, er.2)
  else (th1, er.2)

/-- `memipc_isolation_process_ready_launch`: count the threads that need a
start and the threads that are ready; do nothing when no start is needed,
or when not all threads are ready and the start timeout has not expired;
otherwise run the launch loop over every thread.  (The trailing
`process_all_threads` sweeps do not touch the thread records or the
rings and are modelled separately.) -/
def readyLaunchPass (mgr : Nat) (timers running : Finset Nat)
    (now tssec : Int) (timeoutStarted : Bool) (startTime : Int)
    (ths : List ThreadP) : List (ThreadP × List Nat) :=
  let needs := ths.countP (fun th =>
    (th.state == MEMIPC_STATE_READY) || (th.state == MEMIPC_STATE_LAUNCHED) ||
    (th.state == MEMIPC_STATE_TMP_EXITING_ISOLATION) ||
    (th.state == MEMIPC_STATE_LOST_ISOLATION) || (th.exit_request != 0))
  let ready := ths.countP (fun th =>
    (th.state == MEMIPC_STATE_READY) ||
    (th.state == MEMIPC_STATE_TMP_EXITING_ISOLATION) ||
    (th.state == MEMIPC_STATE_EXITING_ISOLATION) ||
    (th.state == MEMIPC_STATE_LOST_ISOLATION) ||
    (th.state == MEMIPC_STATE_LAUNCHING) ||
    (th.state == MEMIPC_STATE_LAUNCHED) ||
    (th.state == MEMIPC_STATE_RUNNING))
  if needs = 0 then ths.map (fun th => (th, []))
  else if ready < ths.length ∧ (timeoutStarted = false ∨
      tssec - startTime < _global_isolated_threads_start_timeout) then
    ths.map (fun th => (th, []))
  else ths.map (processReadyLaunchThread mgr timers running now tssec)

theorem zip_self_map {α β : Type} (l : List α) (f : α → β) :
    l.zip (l.map f) = l.map (fun x => (x, f x)) := by
  induction l with
  | nil => rfl
  | cons a l ih => rw [List.map_cons, List.zip_cons_cons, ih, List.map_cons]

/-- The core of C3, per thread: with a nonempty overlap between the
timer cpuset and the running cpuset, the launch-loop body never sends
StartConfirmed and never moves a thread into the Running state. -/
theorem readyLaunchThread_no_confirm (mgr : Nat) (timers running : Finset Nat)
    (now tssec : Int) (th : ThreadP)
    (hov : timers ∩ running ≠ ∅) :
    MEMIPC_REQ_START_CONFIRMED ∉
      (processReadyLaunchThread mgr timers running now tssec th).2 ∧
    ((processReadyLaunchThread mgr timers running now tssec th).1.state =
        MEMIPC_STATE_RUNNING →
      th.state = MEMIPC_STATE_RUNNING) := by
  have hcard : (timers ∩ running).card ≠ 0 := by
    intro h
    exact hov (Finset.card_eq_zero.mp h)
  unfold processReadyLaunchThread
  simp only []
  split_ifs <;>
    simp_all [MEMIPC_REQ_TERMINATE, MEMIPC_REQ_START_LAUNCH,
      MEMIPC_REQ_START_CONFIRMED, MEMIPC_REQ_EXIT_ISOLATION,
      MEMIPC_STATE_TMP_EXITING_ISOLATION, MEMIPC_STATE_LAUNCHING,
      MEMIPC_STATE_RUNNING, MEMIPC_STATE_LAUNCHED, MEMIPC_STATE_READY,
      MEMIPC_STATE_LOST_ISOLATION]

/-- C3: the manager's ready-launch pass never moves a worker to the
Running state and never emits StartConfirmed while any CPU of the
running-isolation cpuset is present in the `cpus_with_timers` set
computed by the timer scan: whenever `timers ∩ running` is nonempty,
every thread's emitted request list is free of StartConfirmed and a
thread is in Running after the pass only if it already was before. -/
theorem c3_running_gated_by_timers (mgr : Nat) (timers running : Finset Nat)
    (now tssec : Int) (timeoutStarted : Bool) (startTime : Int)
    (ths : List ThreadP) (hov : timers ∩ running ≠ ∅) :
    ∀ pr ∈ ths.zip (readyLaunchPass mgr timers running now tssec
        timeoutStarted startTime ths),
      MEMIPC_REQ_START_CONFIRMED ∉ pr.2.2 ∧
      (pr.2.1.state = MEMIPC_STATE_RUNNING →
        pr.1.state = MEMIPC_STATE_RUNNING) := by
  simp only [readyLaunchPass]
  split_ifs with h1 h2
  · rw [zip_self_map]
    intro pr hpr
    obtain ⟨x, hx, rfl⟩ := List.mem_map.1 hpr
    exact ⟨List.not_mem_nil _, fun h => h⟩
  · rw [zip_self_map]
    intro pr hpr
    obtain ⟨x, hx, rfl⟩ := List.mem_map.1 hpr
    exact ⟨List.not_mem_nil _, fun h => h⟩
  · rw [zip_self_map]
    intro pr hpr
    obtain ⟨x, hx, rfl⟩ := List.mem_map.1 hpr
    exact readyLaunchThread_no_confirm mgr timers running now tssec x hov

theorem readyLaunchPass_length (mgr : Nat) (timers running : Finset Nat)
    (now tssec : Int) (timeoutStarted : Bool) (startTime : Int)
    (ths : List ThreadP) :
    (readyLaunchPass mgr timers running now tssec timeoutStarted startTime
      ths).length = ths.length := by
  simp only [readyLaunchPass]
  split_ifs <;> simp

/-- Witness for C3: concrete pass over one Launched worker on CPU 1 while
CPU 1 still has timers and runs isolation; the request trace paired with
that worker contains no StartConfirmed. -/
theorem c3_running_gated_by_timers_witness :
    MEMIPC_REQ_START_CONFIRMED ∉
      (([(⟨1, 4, 0, 0, drainedArea 16 0 5 7⟩ : ThreadP)].zip
        (readyLaunchPass 5 {1} {1} 0 0 false 0
          [⟨1, 4, 0, 0, drainedArea 16 0 5 7⟩])).headD
        (⟨1, 4, 0, 0, drainedArea 16 0 5 7⟩,
          (⟨1, 4, 0, 0, drainedArea 16 0 5 7⟩, []))).2.2 := by
  rcases hl : [(⟨1, 4, 0, 0, drainedArea 16 0 5 7⟩ : ThreadP)].zip
      (readyLaunchPass 5 {1} {1} 0 0 false 0
        [⟨1, 4, 0, 0, drainedArea 16 0 5 7⟩]) with _ | ⟨pr, rest⟩
  · exfalso
    have h2 := congrArg List.length hl
    rw [List.length_zip, readyLaunchPass_length] at h2
    simp at h2
  · show MEMIPC_REQ_START_CONFIRMED ∉ pr.2.2
    exact (c3_running_gated_by_timers 5 {1} {1} 0 0 false 0
      [⟨1, 4, 0, 0, drainedArea 16 0 5 7⟩] (by decide) pr
      (by rw [hl]; exact List.mem_cons_self pr rest)).1

/-! ## Claim C7: the restart delay gate for temporarily-exited workers -/

/-- C7 counterexample: a worker in TmpExitingIsolation whose elapsed time
since its recorded isolation-exit equals the restart delay exactly
(3 s elapsed, delay 3 s, so elapsed ≥ delay) is NOT relaunched: the pass
leaves it in TmpExitingIsolation and sends nothing, even though its ring
would accept a StartLaunch request — the source gates on a strict
`>` comparison, not `≥`. -/
theorem c7_counterexample :
    (3 : Int) - 0 ≥ _global_isolated_threads_restart_delay ∧
    (memipc_add_req 5 (drainedArea 16 0 5 7) MEMIPC_REQ_START_LAUNCH 0
      []).ret = 0 ∧
    (readyLaunchPass 5 ∅ ∅ 0 3 false 0
        [⟨0, MEMIPC_STATE_TMP_EXITING_ISOLATION, 0, 0,
          drainedArea 16 0 5 7⟩]).map (fun pr => (pr.1.state, pr.2)) =
      [(MEMIPC_STATE_TMP_EXITING_ISOLATION, [])] := by
  refine ⟨by decide, by decide, by decide⟩

/-- C7 (amended): for a worker in state TmpExitingIsolation with no
pending exit request, the ready-launch pass enqueues StartLaunch and
moves it to Launching once the elapsed monotonic time since its recorded
isolation-exit time is STRICTLY GREATER than the restart delay (default
3 s) and the ring accepts the request; whenever the elapsed time is less
than or equal to the delay (including exact equality) the worker stays in
TmpExitingIsolation and nothing is sent to it. -/
theorem c7_restart_delay_strict (mgr : Nat) (timers running : Finset Nat)
    (now tssec startTime : Int) (timeoutStarted : Bool) (th : ThreadP)
    (hst : th.state = MEMIPC_STATE_TMP_EXITING_ISOLATION)
    (hex : th.exit_request = 0) :
    (tssec - th.isol_exit_time > _global_isolated_threads_restart_delay →
      (memipc_add_req mgr th.m_memipc_mosi MEMIPC_REQ_START_LAUNCH 0
        []).ret = 0 →
      readyLaunchPass mgr timers running now tssec timeoutStarted startTime
          [th] =
        [({ th with
            state := MEMIPC_STATE_LAUNCHING
            m_memipc_mosi := (memipc_add_req mgr th.m_memipc_mosi
              MEMIPC_REQ_START_LAUNCH 0 []).area },
          [MEMIPC_REQ_START_LAUNCH])]) ∧
    (tssec - th.isol_exit_time ≤ _global_isolated_threads_restart_delay →
      readyLaunchPass mgr timers running now tssec timeoutStarted startTime
          [th] =
        [(th, [])]) := by
  have hpass : readyLaunchPass mgr timers running now tssec timeoutStarted
      startTime [th] =
      [processReadyLaunchThread mgr timers running now tssec th] := by
    simp only [readyLaunchPass, List.countP_cons, List.countP_nil,
      List.length_cons, List.length_nil, hst,
      MEMIPC_STATE_TMP_EXITING_ISOLATION, MEMIPC_STATE_READY,
      MEMIPC_STATE_LAUNCHED, MEMIPC_STATE_LOST_ISOLATION,
      MEMIPC_STATE_EXITING_ISOLATION, MEMIPC_STATE_LAUNCHING,
      MEMIPC_STATE_RUNNING, List.map]
    norm_num
  constructor
  · intro hgt hadd
    rw [hpass]
    have hstep : processReadyLaunchThread mgr timers running now tssec th =
        ({ th with
           state := MEMIPC_STATE_LAUNCHING
           m_memipc_mosi := (memipc_add_req mgr th.m_memipc_mosi
             MEMIPC_REQ_START_LAUNCH 0 []).area },
          [MEMIPC_REQ_START_LAUNCH]) := by
      unfold processReadyLaunchThread
      simp only []
      rw [if_neg (show ¬(th.exit_request ≠ 0) by simp [hex])]
      simp only []
      rw [if_pos hst]
      rw [if_pos hgt]
      rw [if_pos hadd]
      rw [List.nil_append]
    rw [hstep]
  · intro hle
    rw [hpass]
    have hstep : processReadyLaunchThread mgr timers running now tssec th =
        (th, []) := by
      unfold processReadyLaunchThread
      simp only []
      rw [if_neg (show ¬(th.exit_request ≠ 0) by simp [hex])]
      simp only []
      rw [if_pos hst]
      rw [if_neg (show ¬(tssec - th.isol_exit_time >
        _global_isolated_threads_restart_delay) by omega)]
    rw [hstep]

/-- Witness for the amended C7: 4 s elapsed with delay 3 (strictly
greater) relaunches the concrete TmpExitingIsolation worker: StartLaunch
is enqueued on its ring and it moves to Launching. -/
theorem c7_restart_delay_strict_witness :
    readyLaunchPass 5 ∅ ∅ 0 4 false 0
        [⟨0, MEMIPC_STATE_TMP_EXITING_ISOLATION, 0, 0,
          drainedArea 16 0 5 7⟩] =
      [({ (⟨0, MEMIPC_STATE_TMP_EXITING_ISOLATION, 0, 0,
            drainedArea 16 0 5 7⟩ : ThreadP) with
          state := MEMIPC_STATE_LAUNCHING
          m_memipc_mosi := (memipc_add_req 5 (drainedArea 16 0 5 7)
            MEMIPC_REQ_START_LAUNCH 0 []).area },
        [MEMIPC_REQ_START_LAUNCH])] :=
  (c7_restart_delay_strict 5 ∅ ∅ 0 4 0 false
    ⟨0, MEMIPC_STATE_TMP_EXITING_ISOLATION, 0, 0, drainedArea 16 0 5 7⟩
    rfl rfl).1 (by decide) (by decide)

/-! ## The timer scanner: `process_all_timers` and its helpers -/

def KTIME_MAX : Int := 2 ^ 63 - 1
def CPU_SETSIZE : Nat := 1024
def T_PARS_START : Nat := 0
def T_PARS_CPU_LIST : Nat := 1
def T_PARS_CPU : Nat := 2
def T_PARS_ACT : Nat := 3
def T_PARS_ACT_PROCESSING : Nat := 4
def T_PARS_TDEV : Nat := 5
def T_PARS_TDEV_BCAST : Nat := 6
def T_PARS_TDEV_CPU : Nat := 7

/-- Bytes of a string literal; C strings are modelled as NUL-free byte
lists, the end of the list standing for the terminating NUL. -/
def strBytes (s : String) : List Nat := s.toList.map Char.toNat

/-- `skip_whitespace`: skip bytes `≤ ' '`. -/
def skip_whitespace : List Nat → List Nat
  | [] => []
  | c :: rest => if c ≤ 32 then skip_whitespace rest else c :: rest

/-- `find_endtoken`, returning both halves: the token (bytes `> ' '`)
and the remainder starting at the end-of-token position. -/
def token_split : List Nat → List Nat × List Nat
  | [] => ([], [])
  | c :: rest =>
    if c > 32 then
      let r := token_split rest
      (c :: r.1, r.2)
    else ([], c :: rest)

/-- `skip_word`: skip whitespace, match the next token against `word`;
on success return the position after the token with whitespace skipped. -/
def skip_word (p word : List Nat) : Option (List Nat) :=
  let ts := token_split (skip_whitespace p)
  if ts.1 = word then some (skip_whitespace ts.2) else none

/-- `strchr`: the remainder just after the first occurrence of byte `c`. -/
def splitAtChar (c : Nat) : List Nat → Option (List Nat)
  | [] => none
  | x :: rest => if x = c then some rest else splitAtChar c rest

def parse_digits : List Nat → Nat → Nat
  | [], acc => acc
  | c :: rest, acc =>
    if 48 ≤ c ∧ c ≤ 57 then parse_digits rest (acc * 10 + (c - 48)) else acc

/-- `sscanf(s, "%lu", &v)`: skip whitespace, require at least one decimal
digit, accumulate. -/
def sscanf_u (l : List Nat) : Option Nat :=
  match skip_whitespace l with
  | [] => none
  | c :: rest =>
    if 48 ≤ c ∧ c ≤ 57 then some (parse_digits (c :: rest) 0) else none

/-- `sscanf(s, "%d", &v)`: like `%lu` with an optional leading minus. -/
def sscanf_d (l : List Nat) : Option Int :=
  match skip_whitespace l with
  | [] => none
  | 45 :: rest =>
    match rest with
    | c :: _ => if 48 ≤ c ∧ c ≤ 57 then
        some (-(parse_digits rest 0 : Int)) else none
    | [] => none
  | c :: rest =>
    if 48 ≤ c ∧ c ≤ 57 then some ((parse_digits (c :: rest) 0 : Int)) else none

/-- A `uint64_t` read back as `int64_t` (the `(uint64_t *) &now_at`
casts in the scanner). -/
def int64ofNat (v : Nat) : Int :=
  if v % 2 ^ 64 < 2 ^ 63 then ((v % 2 ^ 64 : Nat) : Int)
  else ((v % 2 ^ 64 : Nat) : Int) - 2 ^ 64

def unhex (c : Nat) : Nat :=
  if 48 ≤ c ∧ c ≤ 57 then c - 48
  else if 97 ≤ c ∧ c ≤ 102 then c - 97 + 10
  else if 65 ≤ c ∧ c ≤ 70 then c - 65 + 10
  else 0

def hex_digits : List Nat → List Nat
  | [] => []
  | c :: rest =>
    if (48 ≤ c ∧ c ≤ 57) ∨ (97 ≤ c ∧ c ≤ 102) ∨ (65 ≤ c ∧ c ≤ 70) then
      c :: hex_digits rest
    else []

/-- The bit-extraction loop of `get_cpuset`, walking the hex digits from
the least significant (the reversed digit list), `i` counting digits. -/
def get_cpuset_go (cis : Nat) : List Nat → Nat → Finset Int
  | [], _ => ∅
  | c :: rest, i =>
    let val := unhex c
    let s := get_cpuset_go cis rest (i + 1)
    let s0 := if val &&& 1 ≠ 0 ∧ i * 4 < cis then
      insert ((i * 4 : Nat) : Int) s else s
    let s1 := if val &&& 2 ≠ 0 ∧ i * 4 + 1 < cis then
      insert ((i * 4 + 1 : Nat) : Int) s0 else s0
    let s2 := if val &&& 4 ≠ 0 ∧ i * 4 + 2 < cis then
      insert ((i * 4 + 2 : Nat) : Int) s1 else s1
    if val &&& 8 ≠ 0 ∧ i * 4 + 3 < cis then
      insert ((i * 4 + 3 : Nat) : Int) s2 else s2

/-- `get_cpuset`: parse a hex mask into the set of CPU numbers. -/
def get_cpuset (s : List Nat) : Finset Int :=
  let ds := hex_digits (skip_whitespace s)
  get_cpuset_go (min (ds.length * 4) CPU_SETSIZE) ds.reverse 0

/-- `hrtimer_parse_line_1`: `#<count>: <addr>, <function>, S:<state>`;
returns the count and the state (state defaults to 1 when the `S:` field
is absent or malformed). -/
def hrtimer_parse_line_1 (s : List Nat) : Option (Int × Int) :=
  let p := skip_whitespace s
  match splitAtChar 58 p with
  | none => none
  | some p1 =>
    match sscanf_d p with
    | none => none
    | some cnt =>
      match splitAtChar 44 (skip_whitespace p1) with
      | none => none
      | some p2 =>
        match splitAtChar 44 (skip_whitespace p2) with
        | none => none
        | some p3 =>
          let st :=
            match skip_whitespace p3 with
            | 83 :: 58 :: rest =>
              match sscanf_d rest with
              | some v => v
              | none => 1
            | _ => 1
          some (cnt, st)

/-- `hrtimer_parse_line_2`: `expires at <soft>-<hard> nsecs`. -/
def hrtimer_parse_line_2 (s : List Nat) : Option (Int × Int) :=
  match skip_word s (strBytes "expires") with
  | none => none
  | some p1 =>
    match skip_word p1 (strBytes "at") with
    | none => none
    | some p2 =>
      match splitAtChar 45 p2 with
      | none => none
      | some p3 =>
        match sscanf_u p2, sscanf_u p3 with
        | some a, some b => some (int64ofNat a, int64ofNat b)
        | _, _ => none

/-- The per-thread timer bookkeeping fields of
`struct memipc_thread_params` used by `cpu_update_timer`. -/
structure TimerThread where
  cpu : Int
  lasttimer : Int
  updatetimer : Int

/-- `cpu_update_timer`: update the pending-timer record of the managed
thread pinned to `cpu` (if any) and report whether `cpu` hosts a managed
thread. -/
def cpu_update_timer (threads : List TimerThread) (cpu expire now : Int) :
    List TimerThread × Bool :=
  match threads with
  | [] => ([], false)
  | th :: rest =>
    if cpu = th.cpu then
      let lt :=
        if th.lasttimer = KTIME_MAX then expire
        else if th.lasttimer - now < 0 then KTIME_MAX
        else if th.lasttimer - expire < 0 then expire
        else th.lasttimer
      ({ th with
         lasttimer := lt
         updatetimer := now } :: rest, true)
    else
      let r := cpu_update_timer rest cpu expire now
      (th :: r.1, r.2)

/-- `cpu_remove_expired_timers`. -/
def cpu_remove_expired_timers (now : Int) (threads : List TimerThread) :
    List TimerThread :=
  threads.map (fun th =>
    if th.lasttimer ≠ KTIME_MAX ∧ th.lasttimer - now < 0 then
      { th with
        lasttimer := KTIME_MAX
        updatetimer := now }
    else th)

/-- The token recogniser of `process_all_timers` (a token matches only
when its length and bytes agree with the table entry). -/
def timer_token (tok : List Nat) : Nat :=
  if tok = strBytes "now" then 0
  else if tok = strBytes "cpu:" then 1
  else if tok = strBytes "active" then 2
  else if tok = strBytes ".expires_next" then 3
  else if tok = strBytes "Tick" then 4
  else if tok = strBytes "Broadcast" then 5
  else if tok = strBytes "Per" then 6
  else if tok = strBytes "mode:" then 7
  else if tok = strBytes "next_event:" then 8
  else if tok = strBytes "tick_broadcast_mask:" then 9
  else if tok = strBytes "tick_broadcast_oneshot_mask:" then 10
  else 11

/-- The full local state of one `process_all_timers` scan. -/
structure TimerScan where
  parser_state : Nat
  now_at : Int
  expires_next : Int
  hrtimer_softexp : Int
  hrtimer_exp : Int
  tick_dev_next_event : Int
  curr_cpu : Int
  tick_dev_cpu : Int
  hrtimer_parse_err : Bool
  hrtimer_count : Int
  hrtimer_state : Int
  tick_dev_mode : Int
  tick_dev_state : Int
  tick_dev_known : Nat
  tick_dev_cpuset : Finset Int
  tick_dev_os_cpuset : Finset Int
  threads : List TimerThread
  cpuset : Finset Int

/-- The `#`-comment and token `switch` of the scanner loop body:
everything between the end-of-token test and the trailing
tick-device-commit `switch`.  `p` is the whitespace-skipped line and
`ts` its token split. -/
def timer_line_dispatch (st : TimerScan) (p : List Nat)
    (ts : List Nat × List Nat) : TimerScan :=
  if p.headD 0 = 35 then
    if st.parser_state = T_PARS_ACT then
      match hrtimer_parse_line_1 p.tail with
      | some cs =>
        { st with
          parser_state := T_PARS_ACT_PROCESSING
          hrtimer_count := cs.1
          hrtimer_state := cs.2
          hrtimer_parse_err := false }
      | none =>
        { st with
          parser_state := T_PARS_ACT_PROCESSING
          hrtimer_parse_err := true }
    else if st.parser_state = T_PARS_ACT_PROCESSING then
      match hrtimer_parse_line_2 p.tail with
      | some se =>
        let st1 :=
          { st with
            parser_state := T_PARS_ACT
            hrtimer_softexp := se.1
            hrtimer_exp := se.2 }
        if ¬st.hrtimer_parse_err ∧ st.hrtimer_state ≠ 0 ∧
            (se.2 ≠ KTIME_MAX ∨ se.1 ≠ KTIME_MAX) then
          let u := cpu_update_timer st1.threads st1.curr_cpu se.2 st1.now_at
          { st1 with
            threads := u.1
            cpuset := if u.2 then insert st1.curr_cpu st1.cpuset
              else st1.cpuset }
        else st1
      | none =>
        { st with
          parser_state := T_PARS_ACT
          hrtimer_parse_err := true }
    else st
  else
    if timer_token ts.1 = 0 then
      if st.parser_state = T_PARS_START then
        match skip_word ts.2 (strBytes "at") with
        | some e1 =>
          match sscanf_u e1 with
          | some v =>
            { st with
              now_at := int64ofNat v
              parser_state := T_PARS_CPU_LIST }
          | none => st
        | none => st
      else st
    else if timer_token ts.1 = 1 then
      if (st.parser_state = T_PARS_CPU_LIST ∨ st.parser_state = T_PARS_CPU ∨
          st.parser_state = T_PARS_ACT) then
        match sscanf_d ts.2 with
        | some v =>
          { st with
            curr_cpu := v
            parser_state := T_PARS_CPU
            expires_next := KTIME_MAX }
        | none => st
      else st
    else if timer_token ts.1 = 2 then
      match skip_word ts.2 (strBytes "timers:") with
      | some _ =>
        if st.parser_state = T_PARS_CPU then
          { st with parser_state := T_PARS_ACT }
        else st
      | none => st
    else if timer_token ts.1 = 3 then
      if st.parser_state = T_PARS_CPU ∨ st.parser_state = T_PARS_ACT then
        match skip_word ts.2 (strBytes ":") with
        | some e1 =>
          match sscanf_u e1 with
          | some v =>
            let ex := int64ofNat v
            let st1 :=
              { st with
                expires_next := ex
                parser_state := T_PARS_CPU_LIST }
            if ex ≠ KTIME_MAX then
              let u := cpu_update_timer st1.threads st1.curr_cpu ex st1.now_at
              { st1 with
                threads := u.1
                cpuset := if u.2 then insert st1.curr_cpu st1.cpuset
                  else st1.cpuset }
            else st1
          | none => st
        | none => st
      else st
    else if timer_token ts.1 = 4 then
      if (st.parser_state = T_PARS_CPU_LIST ∨ st.parser_state = T_PARS_CPU ∨
          st.parser_state = T_PARS_ACT ∨ st.parser_state = T_PARS_TDEV ∨
          st.parser_state = T_PARS_TDEV_BCAST ∨
          st.parser_state = T_PARS_TDEV_CPU) then
        match skip_word ts.2 (strBytes "Device:") with
        | some e1 =>
          match skip_word e1 (strBytes "mode:") with
          | some e2 =>
            match sscanf_d e2 with
            | some v =>
              { st with
                tick_dev_mode := v
                parser_state := T_PARS_TDEV }
            | none => st
          | none => st
        | none => st
      else st
    else if timer_token ts.1 = 5 then
      if st.parser_state = T_PARS_TDEV then
        match skip_word ts.2 (strBytes "device") with
        | some _ =>
          { st with
            parser_state := T_PARS_TDEV_BCAST
            tick_dev_known := 0 }
        | none => st
      else st
    else if timer_token ts.1 = 6 then
      if st.parser_state = T_PARS_TDEV then
        match skip_word ts.2 (strBytes "CPU") with
        | some e1 =>
          match skip_word e1 (strBytes "device:") with
          | some e2 =>
            match sscanf_d e2 with
            | some v =>
              { st with
                tick_dev_cpu := v
                parser_state := T_PARS_TDEV_CPU
                tick_dev_known := 1 }
            | none => st
          | none => st
        | none => st
      else st
    else if timer_token ts.1 = 7 then
      if st.parser_state = T_PARS_TDEV_BCAST ∨
          st.parser_state = T_PARS_TDEV_CPU then
        match sscanf_d ts.2 with
        | some v =>
          { st with
            tick_dev_state := v
            tick_dev_known := st.tick_dev_known ||| 2 }
        | none => st
      else st
    else if timer_token ts.1 = 8 then
      if st.parser_state = T_PARS_TDEV_BCAST ∨
          st.parser_state = T_PARS_TDEV_CPU then
        match sscanf_u ts.2 with
        | some v =>
          { st with
            tick_dev_next_event := int64ofNat v
            tick_dev_known := st.tick_dev_known ||| 4 }
        | none => st
      else st
    else if timer_token ts.1 = 9 then
      if st.parser_state = T_PARS_TDEV_BCAST then
        { st with
          tick_dev_cpuset := get_cpuset ts.2
          tick_dev_known := st.tick_dev_known ||| 8 }
      else st
    else if timer_token ts.1 = 10 then
      if st.parser_state = T_PARS_TDEV_BCAST then
        { st with
          tick_dev_os_cpuset := get_cpuset ts.2
          tick_dev_known := st.tick_dev_known ||| 16 }
      else st
    else st

/-- The broadcast-device commit loop: try every CPU number below
`CPU_SETSIZE` that appears in either broadcast mask. -/
def bcast_update (s1 s2 : Finset Int) (nev now : Int) :
    Nat → Nat → List TimerThread → Finset Int → List TimerThread × Finset Int
  | _, 0, threads, cpuset => (threads, cpuset)
  | cpunum, k + 1, threads, cpuset =>
    if (cpunum : Int) ∈ s1 ∨ (cpunum : Int) ∈ s2 then
      let u := cpu_update_timer threads (cpunum : Int) nev now
      bcast_update s1 s2 nev now (cpunum + 1) k u.1
        (if u.2 then insert ((cpunum : Nat) : Int) cpuset else cpuset)
    else bcast_update s1 s2 nev now (cpunum + 1) k threads cpuset

/-- The trailing `switch (parser_state)` of the scanner loop body: commit
a completely-described per-CPU or broadcast tick device. -/
def timer_tdev_commit (st : TimerScan) : TimerScan :=
  if st.parser_state = T_PARS_TDEV_CPU then
    if st.tick_dev_known &&& 7 = 7 then
      if (st.tick_dev_state = 2 ∨ st.tick_dev_state = 3) ∧
          st.tick_dev_next_event ≠ KTIME_MAX then
        let u := cpu_update_timer st.threads st.tick_dev_cpu
          st.tick_dev_next_event st.now_at
        { st with
          threads := u.1
          cpuset := if u.2 then insert st.tick_dev_cpu st.cpuset
            else st.cpuset
          tick_dev_known := 0 }
      else st
    else st
  else if st.parser_state = T_PARS_TDEV_BCAST then
    if st.tick_dev_known &&& 30 = 30 then
      if (st.tick_dev_state = 2 ∨ st.tick_dev_state = 3) ∧
          st.tick_dev_next_event ≠ KTIME_MAX ∧
          (st.tick_dev_cpuset.card ≠ 0 ∨ st.tick_dev_os_cpuset.card ≠ 0) then
        let u := bcast_update st.tick_dev_cpuset st.tick_dev_os_cpuset
          st.tick_dev_next_event st.now_at 0 CPU_SETSIZE st.threads st.cpuset
        { st with
          threads := u.1
          cpuset := u.2
          tick_dev_known := 0 }
      else { st with tick_dev_known := 0 }
    else st
  else st

/-- One iteration of the `fgets` loop of `process_all_timers`. -/
def process_timer_line (st : TimerScan) (line : List Nat) : TimerScan :=
  let p := skip_whitespace line
  let ts := token_split p
  if ts.1 = [] then st
  else timer_tdev_commit (timer_line_dispatch st p ts)

/-- The initial scan state of `process_all_timers`. -/
def initTimerScan (threads : List TimerThread) : TimerScan :=
  ⟨T_PARS_START, KTIME_MAX, KTIME_MAX, KTIME_MAX, KTIME_MAX, KTIME_MAX,
    -1, -1, false, 0, 0, 0, 0, 0, ∅, ∅, threads, ∅⟩

/-- `process_all_timers` over a feed of lines: run the scanner, then
publish `now_at` into `*now` and drop expired timers when a `now` header
was seen.  Returns the final scan state (whose `cpuset` is the
`cpus_with_timers` output) and the final value of `*now` (whose initial
value is `now0`). -/
def process_all_timers (threads : List TimerThread) (now0 : Int)
    (lines : List (List Nat)) : TimerScan × Int :=
  let fin := lines.foldl process_timer_line (initTimerScan threads)
  if fin.now_at ≠ KTIME_MAX then
    ({ fin with threads := cpu_remove_expired_timers fin.now_at fin.threads },
      fin.now_at)
  else (fin, now0)

/-! ## Claim C8: scans without a header line -/

/-- The timer feed of the C8 counterexample: a `now` header followed by a
per-CPU tick device block, with no `cpu:` line anywhere. -/
def c8Feed : List (List Nat) :=
  [strBytes "now at 1000", strBytes "Tick Device: mode: 1",
   strBytes "Per CPU device: 3", strBytes "mode: 3",
   strBytes "next_event: 500"]

/-- C8 counterexample: a feed with no `cpu:` header line on which
`process_all_timers` nevertheless produces a NONEMPTY `cpus_with_timers`
set (the per-CPU tick-device block suffices) and sets `*now` to the
parsed 1000, not KTIME_MAX. -/
theorem c8_counterexample :
    (∀ l ∈ c8Feed, (token_split (skip_whitespace l)).1 ≠ strBytes "cpu:") ∧
    (process_all_timers [⟨3, KTIME_MAX, 0⟩] 0 c8Feed).1.cpuset = {3} ∧
    (process_all_timers [⟨3, KTIME_MAX, 0⟩] 0 c8Feed).2 = 1000 := by
  refine ⟨by decide, by decide, by decide⟩

set_option maxHeartbeats 1000000 in
theorem timer_token_eq_zero {tok : List Nat} :
    timer_token tok = 0 ↔ tok = strBytes "now" := by
  unfold timer_token
  constructor
  · intro h0
    by_contra hne
    rw [if_neg hne] at h0
    split_ifs at h0 <;> omega
  · intro h0
    rw [if_pos h0]

/-- A line whose first token is not `now` leaves a scan state that still
sits in `T_PARS_START` completely unchanged. -/
theorem process_timer_line_start (st : TimerScan) (l : List Nat)
    (hp : st.parser_state = T_PARS_START)
    (h : (token_split (skip_whitespace l)).1 ≠ strBytes "now") :
    process_timer_line st l = st := by
  have htt : ¬(timer_token (token_split (skip_whitespace l)).1 = 0) := by
    rw [timer_token_eq_zero]
    exact h
  unfold process_timer_line
  by_cases hnil : (token_split (skip_whitespace l)).1 = []
  · rw [if_pos hnil]
  · rw [if_neg hnil]
    have hdisp : timer_line_dispatch st (skip_whitespace l)
        (token_split (skip_whitespace l)) = st := by
      unfold timer_line_dispatch
      by_cases h35 : (skip_whitespace l).headD 0 = 35
      · rw [if_pos h35,
          if_neg (show ¬(st.parser_state = T_PARS_ACT) by rw [hp]; decide),
          if_neg (show ¬(st.parser_state = T_PARS_ACT_PROCESSING) by
            rw [hp]; decide)]
      · rw [if_neg h35, if_neg htt]
        by_cases h1 : timer_token (token_split (skip_whitespace l)).1 = 1
        · rw [if_pos h1, if_neg (show ¬(st.parser_state = T_PARS_CPU_LIST ∨
            st.parser_state = T_PARS_CPU ∨ st.parser_state = T_PARS_ACT) by
              rw [hp]; decide)]
        · rw [if_neg h1]
          by_cases h2 : timer_token (token_split (skip_whitespace l)).1 = 2
          · rw [if_pos h2]
            cases hsw : skip_word (token_split (skip_whitespace l)).2
                (strBytes "timers:") with
            | none => rfl
            | some e1 =>
              rw [if_neg (show ¬(st.parser_state = T_PARS_CPU) by
                rw [hp]; decide)]
          · rw [if_neg h2]
            by_cases h3 : timer_token (token_split (skip_whitespace l)).1 = 3
            · rw [if_pos h3, if_neg (show ¬(st.parser_state = T_PARS_CPU ∨
                st.parser_state = T_PARS_ACT) by rw [hp]; decide)]
            · rw [if_neg h3]
              by_cases h4 : timer_token (token_split (skip_whitespace l)).1 = 4
              · rw [if_pos h4, if_neg (show
                  ¬(st.parser_state = T_PARS_CPU_LIST ∨
                    st.parser_state = T_PARS_CPU ∨
                    st.parser_state = T_PARS_ACT ∨
                    st.parser_state = T_PARS_TDEV ∨
                    st.parser_state = T_PARS_TDEV_BCAST ∨
                    st.parser_state = T_PARS_TDEV_CPU) by rw [hp]; decide)]
              · rw [if_neg h4]
                by_cases h5 : timer_token
                    (token_split (skip_whitespace l)).1 = 5
                · rw [if_pos h5, if_neg (show
                    ¬(st.parser_state = T_PARS_TDEV) by rw [hp]; decide)]
                · rw [if_neg h5]
                  by_cases h6 : timer_token
                      (token_split (skip_whitespace l)).1 = 6
                  · rw [if_pos h6, if_neg (show
                      ¬(st.parser_state = T_PARS_TDEV) by rw [hp]; decide)]
                  · rw [if_neg h6]
                    by_cases h7 : timer_token
                        (token_split (skip_whitespace l)).1 = 7
                    · rw [if_pos h7, if_neg (show
                        ¬(st.parser_state = T_PARS_TDEV_BCAST ∨
                          st.parser_state = T_PARS_TDEV_CPU) by
                            rw [hp]; decide)]
                    · rw [if_neg h7]
                      by_cases h8 : timer_token
                          (token_split (skip_whitespace l)).1 = 8
                      · rw [if_pos h8, if_neg (show
                          ¬(st.parser_state = T_PARS_TDEV_BCAST ∨
                            st.parser_state = T_PARS_TDEV_CPU) by
                              rw [hp]; decide)]
                      · rw [if_neg h8]
                        by_cases h9 : timer_token
                            (token_split (skip_whitespace l)).1 = 9
                        · rw [if_pos h9, if_neg (show
                            ¬(st.parser_state = T_PARS_TDEV_BCAST) by
                              rw [hp]; decide)]
                        · rw [if_neg h9]
                          by_cases h10 : timer_token
                              (token_split (skip_whitespace l)).1 = 10
                          · rw [if_pos h10, if_neg (show
                              ¬(st.parser_state = T_PARS_TDEV_BCAST) by
                                rw [hp]; decide)]
                          · rw [if_neg h10]
    rw [hdisp]
    unfold timer_tdev_commit
    rw [if_neg (show ¬(st.parser_state = T_PARS_TDEV_CPU) by rw [hp]; decide),
      if_neg (show ¬(st.parser_state = T_PARS_TDEV_BCAST) by
        rw [hp]; decide)]

/-- C8 (amended): when no line of the timer feed has first token `now`
(in particular the scanner never leaves its start state, whether or not
`cpu:` lines occur), `process_all_timers` produces an empty
`cpus_with_timers` set and leaves its `now` output parameter UNCHANGED
(it does not store KTIME_MAX into it). -/
theorem c8_no_now_header (threads : List TimerThread) (now0 : Int)
    (lines : List (List Nat))
    (h : ∀ l ∈ lines, (token_split (skip_whitespace l)).1 ≠ strBytes "now") :
    (process_all_timers threads now0 lines).1.cpuset = ∅ ∧
    (process_all_timers threads now0 lines).2 = now0 := by
  have hfold : ∀ (ls : List (List Nat)) (st : TimerScan),
      st.parser_state = T_PARS_START →
      (∀ l ∈ ls, (token_split (skip_whitespace l)).1 ≠ strBytes "now") →
      ls.foldl process_timer_line st = st := by
    intro ls
    induction ls with
    | nil => intro st _ _; rfl
    | cons a ls ih =>
      intro st hst hls
      rw [List.foldl_cons,
        process_timer_line_start st a hst (hls a (List.mem_cons_self a ls))]
      exact ih st hst (fun l hl => hls l (List.mem_cons_of_mem a hl))
  unfold process_all_timers
  rw [hfold lines (initTimerScan threads) rfl h]
  rw [if_neg (show ¬((initTimerScan threads).now_at ≠ KTIME_MAX) by
    simp [initTimerScan])]
  exact ⟨rfl, rfl⟩

/-- Witness for the amended C8: a feed consisting of a `cpu:` line and a
timer body line (but no `now` header) yields an empty set and an
untouched `now` of 77. -/
theorem c8_no_now_header_witness :
    (process_all_timers [⟨3, KTIME_MAX, 0⟩] 77
        [strBytes "cpu: 3", strBytes ".expires_next   : 500"]).1.cpuset
      = ∅ ∧
    (process_all_timers [⟨3, KTIME_MAX, 0⟩] 77
        [strBytes "cpu: 3", strBytes ".expires_next   : 500"]).2 = 77 :=
  c8_no_now_header [⟨3, KTIME_MAX, 0⟩] 77
    [strBytes "cpu: 3", strBytes ".expires_next   : 500"] (by decide)

/-! ## Claim C9: the push-away sweep of `process_all_threads` -/

/-- One `proctable` entry as used by the push-away loop: kernel pid/tid,
whether the entry resolved to a managed isolated thread
(`isolated_thread != NULL`), and the thread's current affinity mask. -/
structure ProcEntry where
  pid : Int
  tid : Int
  isolated_thread : Bool
  cpus_allowed : Finset Nat

/-- The per-entry body of the `ISOL_PROC_LIST_CMD_PUSH_AWAY` loop of
`process_all_threads`: decide whether to rebind the entry's affinity and
compute the mask handed to `sched_setaffinity` (`CPU_XOR` of the mask
with its overlap, widened to the non-isolated complement when empty);
`none` means the entry is left untouched. -/
def pushAwayDecision (my_pid : Int) (isol nonisol : Finset Nat)
    (e : ProcEntry) : Option (Finset Nat) :=
  if e.isolated_thread = false ∧ (e.pid ≠ my_pid ∨ e.tid = my_pid) ∧
      1 < e.cpus_allowed.card then
    let overlap := e.cpus_allowed ∩ isol
    if overlap.card ≠ 0 then
      let sched := (e.cpus_allowed \ overlap) ∪ (overlap \ e.cpus_allowed)
      some (if sched.card = 0 then sched ∪ nonisol else sched)
    else none
  else none

/-- The whole push-away sweep: every enumerated entry paired with the
affinity assignment applied to it (if any). -/
def processAllThreadsPushAway (my_pid : Int) (isol nonisol : Finset Nat)
    (tbl : List ProcEntry) : List (ProcEntry × Option (Finset Nat)) :=
  tbl.map (fun e => (e, pushAwayDecision my_pid isol nonisol e))

/-- C9: in a push-away sweep, an enumerated entry is rebound if and only
if it is not a managed worker, is not a non-main thread of the manager's
own process, has more than one CPU allowed and its allowed set meets the
isolation set; the applied mask is `cpus_allowed \ isolation`, widened to
the non-isolation complement when that difference is empty; and an entry
pinned to a single CPU is never touched. -/
theorem c9_push_away (my_pid : Int) (isol nonisol : Finset Nat)
    (e : ProcEntry) :
    (pushAwayDecision my_pid isol nonisol e ≠ none ↔
      (e.isolated_thread = false ∧ (e.pid ≠ my_pid ∨ e.tid = my_pid) ∧
        1 < e.cpus_allowed.card ∧ e.cpus_allowed ∩ isol ≠ ∅)) ∧
    (∀ m, pushAwayDecision my_pid isol nonisol e = some m →
      m = (if e.cpus_allowed \ isol = ∅ then nonisol
        else e.cpus_allowed \ isol)) ∧
    (e.cpus_allowed.card = 1 → pushAwayDecision my_pid isol nonisol e = none)
    := by
  have hxor : (e.cpus_allowed \ (e.cpus_allowed ∩ isol)) ∪
      ((e.cpus_allowed ∩ isol) \ e.cpus_allowed) = e.cpus_allowed \ isol := by
    ext x
    simp only [Finset.mem_union, Finset.mem_sdiff, Finset.mem_inter]
    tauto
  refine ⟨⟨?_, ?_⟩, ?_, ?_⟩
  · intro h
    by_cases h1 : e.isolated_thread = false ∧
        (e.pid ≠ my_pid ∨ e.tid = my_pid) ∧ 1 < e.cpus_allowed.card
    · by_cases h2 : (e.cpus_allowed ∩ isol).card ≠ 0
      · obtain ⟨ha, hb, hc⟩ := h1
        refine ⟨ha, hb, hc, ?_⟩
        intro hemp
        apply h2
        rw [hemp]
        simp
      · exfalso
        apply h
        unfold pushAwayDecision
        rw [if_pos h1]
        simp only []
        rw [if_neg h2]
    · exfalso
      apply h
      unfold pushAwayDecision
      rw [if_neg h1]
  · rintro ⟨ha, hb, hc, hov⟩
    unfold pushAwayDecision
    rw [if_pos ⟨ha, hb, hc⟩]
    simp only []
    rw [if_pos (show (e.cpus_allowed ∩ isol).card ≠ 0 from
      fun h0 => hov (Finset.card_eq_zero.mp h0))]
    simp
  · intro m hm
    unfold pushAwayDecision at hm
    by_cases h1 : e.isolated_thread = false ∧
        (e.pid ≠ my_pid ∨ e.tid = my_pid) ∧ 1 < e.cpus_allowed.card
    · rw [if_pos h1] at hm
      simp only [] at hm
      by_cases h2 : (e.cpus_allowed ∩ isol).card ≠ 0
      · rw [if_pos h2] at hm
        have hmm := Option.some.inj hm
        rw [← hmm, hxor]
        by_cases hd : e.cpus_allowed \ isol = ∅
        · rw [if_pos (show (e.cpus_allowed \ isol).card = 0 by
            rw [hd]; simp), if_pos hd, hd, Finset.empty_union]
        · rw [if_neg (show ¬((e.cpus_allowed \ isol).card = 0) from
            fun h0 => hd (Finset.card_eq_zero.mp h0)), if_neg hd]
      · rw [if_neg h2] at hm
        exact absurd hm (by simp)
    · rw [if_neg h1] at hm
      exact absurd hm (by simp)
  · intro hone
    unfold pushAwayDecision
    rw [if_neg (show ¬(e.isolated_thread = false ∧
        (e.pid ≠ my_pid ∨ e.tid = my_pid) ∧ 1 < e.cpus_allowed.card) from
      fun hc => absurd hc.2.2 (by omega))]

/-- Witness for C9 at a concrete entry: a two-CPU entry overlapping the
isolation set is rebound to the difference; the iff, mask and pin-guard
clauses hold at these values. -/
theorem c9_push_away_witness :
    (pushAwayDecision 9 {1} {0, 2} ⟨7, 7, false, {0, 1}⟩ ≠ none ↔
      ((false = false) ∧ ((7 : Int) ≠ 9 ∨ (7 : Int) = 9) ∧
        1 < ({0, 1} : Finset Nat).card ∧
        ({0, 1} : Finset Nat) ∩ {1} ≠ ∅)) ∧
    (∀ m, pushAwayDecision 9 {1} {0, 2} ⟨7, 7, false, {0, 1}⟩ = some m →
      m = (if ({0, 1} : Finset Nat) \ {1} = ∅ then {0, 2}
        else ({0, 1} : Finset Nat) \ {1})) ∧
    (({0, 1} : Finset Nat).card = 1 →
      pushAwayDecision 9 {1} {0, 2} ⟨7, 7, false, {0, 1}⟩ = none) :=
  c9_push_away 9 {1} {0, 2} ⟨7, 7, false, {0, 1}⟩

/-! ## Claim C10: the `newtask` error paths of `client_text_handler` -/

def get_uint_go : List Nat → Nat → Nat
  | c :: rest, val =>
    if 48 ≤ c ∧ c ≤ 57 then get_uint_go rest ((val * 10 + (c - 48)) % 2 ^ 32)
    else val
  | [], val => val

/-- `get_uint`: accumulate decimal digits into an `unsigned int`. -/
def get_uint (s : List Nat) : Nat := get_uint_go s 0

def get_int_digits : List Nat → Int → Int
  | c :: rest, val =>
    if 48 ≤ c ∧ c ≤ 57 then get_int_digits rest (val * 10 + ((c : Int) - 48))
    else val
  | [], val => val

/-- `get_int`: optional minus sign, then decimal digits. -/
def get_int (s : List Nat) : Int :=
  match s with
  | 45 :: rest => -(get_int_digits rest 0)
  | _ => get_int_digits s 0

/-- Observable outcome of one `newtask` command: the response lines sent
back on the control connection, whether `isolation_claim_cpu` was
invoked, whether the session's task attachment was set, and whether any
worker record was modified.  (The success transcript is abbreviated to
its first line; the claims under verification concern only the failure
paths.) -/
structure ClientResult where
  responses : List String
  claim_called : Bool
  attachment_set : Bool
  worker_updated : Bool

/-- The `ISOL_SRV_CMD_NEWTASK` case of `client_text_handler`, together
with the handler's argument-extraction prologue: split the command token
off `line`, take the remainder (whitespace-skipped) as the argument;
parse `<cpu>,<pid>/<tid>`; reply `500 Invalid command.` when the
argument is missing or lacks the `,` or `/` separator; act only when
both pid and tid are nonzero.  `has_task` is the oracle for
`get_client_task(client_index) != NULL` and `claim_ok` for
`isolation_claim_cpu` succeeding. -/
def client_newtask (line : List Nat) (has_task claim_ok : Bool) :
    ClientResult :=
  let ts := token_split line
  let a := skip_whitespace ts.2
  let arg : Option (List Nat) := if a ≠ [] then some a else none
  match arg with
  | none => ⟨["500 Invalid command.\n"], false, false, false⟩
  | some a =>
    match splitAtChar 44 a with
    | none => ⟨["500 Invalid command.\n"], false, false, false⟩
    | some r1 =>
      let client_cpu := get_int a
      match splitAtChar 47 r1 with
      | none => ⟨["500 Invalid command.\n"], false, false, false⟩
      | some r2 =>
        let client_pid := get_uint r1
        let client_tid := get_uint r2
        if client_pid ≠ 0 ∧ client_tid ≠ 0 then
          if has_task then
            ⟨["500 Already connected.\n"], false, false, false⟩
          else if claim_ok then
            ⟨["200-Task allocated\n"], true, true, true⟩
          else
            ⟨["500 Can't allocate CPU.\n"], true, false, false⟩
        else ⟨[], false, false, false⟩

/-- C10: a `newtask` line whose argument is missing, lacks the `,`
separator or lacks the `/` separator draws the single response
`500 Invalid command.` and claims no CPU, touching neither the
attachment nor any worker; and a `newtask` line that parses but carries
pid 0 or tid 0 draws no response at all, claims no CPU and leaves every
worker record and the session's task attachment unchanged. -/
theorem c10_newtask_invalid (line : List Nat) (has_task claim_ok : Bool) :
    ((skip_whitespace (token_split line).2 = [] ∨
      splitAtChar 44 (skip_whitespace (token_split line).2) = none ∨
      (∃ r1, splitAtChar 44 (skip_whitespace (token_split line).2) = some r1 ∧
        splitAtChar 47 r1 = none)) →
      client_newtask line has_task claim_ok =
        ⟨["500 Invalid command.\n"], false, false, false⟩) ∧
    (∀ r1 r2,
      splitAtChar 44 (skip_whitespace (token_split line).2) = some r1 →
      splitAtChar 47 r1 = some r2 →
      get_uint r1 = 0 ∨ get_uint r2 = 0 →
      client_newtask line has_task claim_ok = ⟨[], false, false, false⟩) := by
  constructor
  · intro h
    unfold client_newtask
    simp only []
    rcases h with h0 | h1 | ⟨r1, hr1, hr2⟩
    · rw [if_neg (show ¬(skip_whitespace (token_split line).2 ≠ []) by
        simp [h0])]
    · by_cases hnil : skip_whitespace (token_split line).2 = []
      · rw [if_neg (by simp [hnil])]
      · rw [if_pos hnil]
        simp only []
        rw [h1]
    · by_cases hnil : skip_whitespace (token_split line).2 = []
      · rw [if_neg (by simp [hnil])]
      · rw [if_pos hnil]
        simp only []
        rw [hr1]
        simp only []
        rw [hr2]
  · intro r1 r2 hr1 hr2 hz
    unfold client_newtask
    simp only []
    have hnil : ¬(skip_whitespace (token_split line).2 = []) := by
      intro h0
      rw [h0] at hr1
      exact absurd hr1 (by simp [splitAtChar])
    rw [if_pos hnil]
    simp only []
    rw [hr1]
    simp only []
    rw [hr2]
    simp only []
    rw [if_neg (show ¬(get_uint r1 ≠ 0 ∧ get_uint r2 ≠ 0) by
      rcases hz with hz | hz <;> simp [hz])]

/-- Witness for C10: the line `newtask 17` (no `,`) draws exactly
`500 Invalid command.`, and the line `newtask 1,0/0` (pid 0, tid 0) is
dropped silently with no CPU claimed and nothing modified. -/
theorem c10_newtask_invalid_witness :
    client_newtask (strBytes "newtask 17") false true =
      ⟨["500 Invalid command.\n"], false, false, false⟩ ∧
    client_newtask (strBytes "newtask 1,0/0") false true =
      ⟨[], false, false, false⟩ :=
  ⟨(c10_newtask_invalid (strBytes "newtask 17") false true).1
      (Or.inr (Or.inl (by decide))),
    (c10_newtask_invalid (strBytes "newtask 1,0/0") false true).2
      (strBytes "0/0") (strBytes "0") (by decide) (by decide)
      (Or.inl (by decide))⟩

end Isol
